import Mathlib

/-!
Verification of the repository-ingestion pipeline of the `code-help`
backend (`backend/copilot/github_service.py` and
`backend/copilot/preprocessing.py`).

The Python source is embedded shallowly: strings are Lean `String`s
(manipulated through their character lists, mirroring the regular
expressions of the source character by character), remote HTTP calls
are an oracle record `Remote` whose fields stand for the four
`GitHubClient` operations, and every fallible operation returns
`Except GError`.  Python dictionaries built from lists of pairs are
association lists.
-/

/-! ### Character and list helpers -/

/-- Whitespace characters stripped by Python's `str.strip` (ASCII range). -/
def isSpaceChar (c : Char) : Bool :=
  c == ' ' || c == '\t' || c == '\n' || c == '\r' || c == '\x0b' || c == '\x0c'

/-- Embedding of `url.strip()` on the character list of the string. -/
def pyStrip (cs : List Char) : List Char :=
  ((cs.dropWhile isSpaceChar).reverse.dropWhile isSpaceChar).reverse

/-- Consume an exact literal from the front of `cs`; `none` when it is absent.
This is how the fixed text of each regular expression of the source is
matched. -/
def dropLit : List Char → List Char → Option (List Char)
  | [], cs => some cs
  | _ :: _, [] => none
  | l :: ls, c :: cs => if c = l then dropLit ls cs else none

/-- Test for a literal at the front of a character list. -/
def isPrefList : List Char → List Char → Bool
  | [], _ => true
  | _ :: _, [] => false
  | a :: as, b :: bs => a == b && isPrefList as bs

/-- Substring test on character lists (Python's `in` on strings). -/
def containsSub : List Char → List Char → Bool
  | [], needle => needle.isEmpty
  | h :: t, needle => isPrefList needle (h :: t) || containsSub t needle

/-- Predicate for a character other than `'/'`, the class `[^/]` of the
source's patterns. -/
def notSlash (c : Char) : Bool := !(c == '/')

/-- Predicate for a character other than `'\n'`, the class `.` of the
source's patterns. -/
def notNl (c : Char) : Bool := !(c == '\n')

/-- Match `([^/]+)` followed by the rest of the input: the captured maximal
nonempty run of non-slash characters together with what follows it. -/
def seg1 (cs : List Char) : Option (List Char × List Char) :=
  let s := cs.takeWhile notSlash
  if s.isEmpty then none else some (s, cs.dropWhile notSlash)

/-- Match `(.+)` at the end of a pattern without `$`: the maximal nonempty
run of non-newline characters (trailing text is not constrained). -/
def dotPlus (cs : List Char) : Option (List Char) :=
  let p := cs.takeWhile notNl
  if p.isEmpty then none else some p

/-- Match `/?$` (an optional slash, then end of input, where Python's `$`
also accepts a single trailing newline). -/
def optSlashEnd (cs : List Char) : Bool :=
  cs == [] || cs == ['/'] || cs == ['/', '\n']

/-- ASCII lowering of one character, the effect of Python `str.lower` on the
ASCII file names and language labels this code handles. -/
def asciiLower (c : Char) : Char :=
  if 'A' ≤ c ∧ c ≤ 'Z' then Char.ofNat (c.toNat + 32) else c

/-- Embedding of `s.lower()` for ASCII strings. -/
def lowerStr (s : String) : String := ⟨s.data.map asciiLower⟩

/-- Embedding of `path.split("/")[-1]`: the final path segment. -/
def baseName (path : String) : String :=
  ⟨(path.data.reverse.takeWhile notSlash).reverse⟩

/-- Python's `a or b` on strings: `a` when nonempty, else `b`. -/
def pyOrStr (a b : String) : String := if a ≠ "" then a else b

/-- Lookup in an association list, the `.get` of a Python dict whose keys
are unique. -/
def pyGet (m : List (String × String)) (k : String) : Option String :=
  (m.find? (fun e => e.1 == k)).map (·.2)

/-! ### URL parser (`GitHubURLParser`, github_service.py lines 78-167)

The five regular expressions of `GITHUB_PATTERNS` are matched in order by
the functions below.  Each `[^/]+` group is a maximal nonempty run of
non-slash characters (the next literal in every pattern is a slash, so the
greedy run is exactly what Python's engine captures), each trailing `(.+)`
is a maximal nonempty run of non-newline characters with any remainder
ignored (`re.match` anchors only the start), and `$` accepts the end of the
string or one final newline. -/

/-- Parsed components of a GitHub URL (`ParsedGitHubURL` dataclass). -/
structure ParsedGitHubURL where
  owner : String
  repo : String
  branch : String := "main"
  path : String := ""
  is_file : Bool := false
  is_directory : Bool := false
  is_repo_root : Bool := false
  raw_url : String := ""
  original_url : String := ""
  deriving Repr, DecidableEq

/-- Characters of `"github.com/"`, the host part of patterns 0-3. -/
def ghHost : List Char := "github.com/".data

/-- Characters of `"raw.githubusercontent.com/"`, the host of pattern 4. -/
def rawHost : List Char := "raw.githubusercontent.com/".data

/-- Remove a leading `https://` or `http://` (`re.sub(r"^https?://", "", url)`). -/
def stripProto (cs : List Char) : List Char :=
  match dropLit "https://".data cs with
  | some r => r
  | none =>
    match dropLit "http://".data cs with
    | some r => r
    | none => cs

/-- Match `([^/]+)/([^/]+)` and return both captures with what follows the
second one. -/
def ownerRepoSeg (cs : List Char) : Option (List Char × List Char × List Char) :=
  match seg1 cs with
  | none => none
  | some (o, r1) =>
    match dropLit ['/'] r1 with
    | none => none
    | some r2 =>
      match seg1 r2 with
      | none => none
      | some (r, r3) => some (o, r, r3)

/-- Match `/kw/([^/]+)/(.+)` after the owner/repo captures (`kw` is `blob`
or `tree`), returning branch and path captures. -/
def branchPathSeg (kw : List Char) (cs : List Char) : Option (List Char × List Char) :=
  match dropLit kw cs with
  | none => none
  | some r4 =>
    match seg1 r4 with
    | none => none
    | some (b, r5) =>
      match dropLit ['/'] r5 with
      | none => none
      | some r6 =>
        match dotPlus r6 with
        | none => none
        | some p => some (b, p)

/-- Match `/tree/([^/]+)/?$` after the owner/repo captures. -/
def branchEndSeg (cs : List Char) : Option (List Char) :=
  match dropLit "/tree/".data cs with
  | none => none
  | some r4 =>
    match seg1 r4 with
    | none => none
    | some (b, r5) => if optSlashEnd r5 then some b else none

/-- Try the four `github.com` patterns, in the order of `GITHUB_PATTERNS`,
on the input with host already consumed; `u` is the stripped URL used for
`original_url`. -/
def parseGhBody (u : String) (cs : List Char) : Option ParsedGitHubURL :=
  match ownerRepoSeg cs with
  | none => none
  | some (o, r, rest) =>
    match branchPathSeg "/blob/".data rest with
    | some (b, p) =>
      some { owner := ⟨o⟩, repo := ⟨r⟩, branch := ⟨b⟩, path := ⟨p⟩,
             is_file := true, original_url := u,
             raw_url := ⟨"https://raw.githubusercontent.com/".data ++ o ++ '/' :: r ++ '/' :: b ++ '/' :: p⟩ }
    | none =>
      match branchPathSeg "/tree/".data rest with
      | some (b, p) =>
        some { owner := ⟨o⟩, repo := ⟨r⟩, branch := ⟨b⟩, path := ⟨p⟩,
               is_directory := true, original_url := u }
      | none =>
        match branchEndSeg rest with
        | some b =>
          some { owner := ⟨o⟩, repo := ⟨r⟩, branch := ⟨b⟩, path := "",
                 is_repo_root := true, original_url := u }
        | none =>
          if optSlashEnd rest then
            some { owner := ⟨o⟩, repo := ⟨r⟩, branch := "main", path := "",
                   is_repo_root := true, original_url := u }
          else none

/-- Match pattern 4, `raw.githubusercontent.com/([^/]+)/([^/]+)/([^/]+)/(.+)`,
on the input with host already consumed. -/
def parseRawBody (u : String) (cs : List Char) : Option ParsedGitHubURL :=
  match ownerRepoSeg cs with
  | none => none
  | some (o, r, rest) =>
    match dropLit ['/'] rest with
    | none => none
    | some r2 =>
      match seg1 r2 with
      | none => none
      | some (b, r3) =>
        match dropLit ['/'] r3 with
        | none => none
        | some r4 =>
          match dotPlus r4 with
          | none => none
          | some p =>
            some { owner := ⟨o⟩, repo := ⟨r⟩, branch := ⟨b⟩, path := ⟨p⟩,
                   is_file := true, original_url := u, raw_url := u }

namespace GitHubURLParser

/-- Embedding of `GitHubURLParser.parse` (github_service.py lines 95-156). -/
def parse (url : String) : Option ParsedGitHubURL :=
  let stripped := pyStrip url.data
  let u : String := ⟨stripped⟩
  let clean := stripProto stripped
  match dropLit ghHost clean with
  | some rest => parseGhBody u rest
  | none =>
    match dropLit rawHost clean with
    | some rest => parseRawBody u rest
    | none => none

end GitHubURLParser

/-! ### URL extraction (`preprocessing.extract_github_url`, lines 24-28)

The pattern `https?://(?:www\.)?github\.com/[^\s)>\]"']+` is searched for
its leftmost match; the greedy final class is a maximal nonempty run of
characters that are neither ASCII whitespace nor one of `)>]"'`. -/

/-- A character allowed inside the URL run of the extraction pattern. -/
def urlRunChar (c : Char) : Bool :=
  !(isSpaceChar c) && !(c == ')') && !(c == '>') && !(c == ']') && !(c == '"') && !(c == '\'')

/-- Try the extraction pattern at the current position, returning the
matched characters. -/
def matchUrlAt (cs : List Char) : Option (List Char) :=
  match dropLit "http".data cs with
  | none => none
  | some r1 =>
    let proto : Option (List Char × List Char) :=
      match dropLit "s://".data r1 with
      | some r2 => some ("https://".data, r2)
      | none =>
        match dropLit "://".data r1 with
        | some r2 => some ("http://".data, r2)
        | none => none
    match proto with
    | none => none
    | some (pfx, r2) =>
      let host : Option (List Char × List Char) :=
        match dropLit "www.github.com/".data r2 with
        | some r3 => some ("www.github.com/".data, r3)
        | none =>
          match dropLit "github.com/".data r2 with
          | some r3 => some ("github.com/".data, r3)
          | none => none
      match host with
      | none => none
      | some (hst, r3) =>
        let run := r3.takeWhile urlRunChar
        if run.isEmpty then none else some (pfx ++ hst ++ run)

/-- Leftmost match of the extraction pattern (`re.search`). -/
def searchUrl : List Char → Option (List Char)
  | [] => none
  | c :: rest =>
    match matchUrlAt (c :: rest) with
    | some m => some m
    | none => searchUrl rest

/-- Embedding of `extract_github_url` (preprocessing.py lines 24-28). -/
def extract_github_url (text : String) : Option String :=
  (searchUrl text.data).map (fun l => ⟨l⟩)

/-! ### Error taxonomy and status classification (`GitHubClient._request`,
github_service.py lines 190-214)

The source raises a single `GitHubError` exception carrying only a message;
the three raise sites of `_request` (status 404, status 403, any other
non-200 status) are embedded as the three constructors below, each holding
the exact message text the source formats.  `invalid` stands for the
`GitHubError` raised by `build_repo_context` on an unparsable URL. -/

inductive GError where
  | notFound (msg : String)
  | rateLimited (msg : String)
  | remoteError (msg : String)
  | invalid (msg : String)
  deriving Repr, DecidableEq

/-- The fixed message of the 403 branch of `_request`. -/
def rateLimitMsg : String := "Rate limit exceeded. Try again later or use a GitHub token."

/-- Status dispatch of `GitHubClient._request` (lines 195-200): the error
raised for a response status, or `none` for status 200. -/
def classify_status (url : String) (status : Nat) : Option GError :=
  if status = 404 then some (GError.notFound ("Not found: " ++ url))
  else if status = 403 then some (GError.rateLimited rateLimitMsg)
  else if status ≠ 200 then some (GError.remoteError ("GitHub API error: " ++ toString status))
  else none

/-- Status dispatch of `GitHubClient._fetch_raw` (lines 209-212), used for
raw file content: there is no 403 branch here. -/
def classify_raw_status (url : String) (status : Nat) : Option GError :=
  if status = 404 then some (GError.notFound ("File not found: " ++ url))
  else if status ≠ 200 then some (GError.remoteError ("Failed to fetch file: " ++ toString status))
  else none

/-! ### Data model (github_service.py lines 21-72 and 578-609) -/

/-- A file entry of a repository listing (`GitHubFile` dataclass; the
fields the analyzed code reads). -/
structure GitHubFile where
  path : String
  name : String
  type : String := "file"
  size : Nat := 0
  sha : String := ""
  deriving Repr, DecidableEq

/-- Repository metadata (`GitHubRepo` dataclass). -/
structure GitHubRepo where
  owner : String
  name : String
  full_name : String
  description : String := ""
  language : String := ""
  default_branch : String := "main"
  stars : Nat := 0
  forks : Nat := 0
  topics : List String := []
  deriving Repr, DecidableEq

/-- A Python value stored in the nested display tree built by
`RepoAnalyzer._build_tree`: every node is a dict whose leaf entries are
strings or integers. -/
inductive PyVal where
  | s (v : String)
  | n (v : Nat)
  | dict (entries : List (String × PyVal))
  deriving Repr

/-- Analyzed repository structure (`RepoStructure` dataclass). -/
structure RepoStructure where
  repo : GitHubRepo
  files : List GitHubFile := []
  tree : List (String × PyVal) := []
  languages : List (String × Nat) := []
  dependencies : List String := []
  framework : String := ""
  entry_points : List String := []
  total_files : Nat := 0
  total_dirs : Nat := 0
  deriving Repr

/-- Snapshot metadata (`RepoMeta` pydantic model). -/
structure RepoMeta where
  owner : String
  name : String
  full_name : String
  description : String := ""
  stars : Nat := 0
  default_branch : String := "main"
  language : String := ""
  topics : List String := []
  deriving Repr, DecidableEq

/-- The snapshot (`RepoContext` pydantic model): dicts are association
lists whose keys are unique by construction. -/
structure RepoContext where
  meta : RepoMeta
  tree : List (String × PyVal) := []
  files : List String := []
  file_contents : List (String × String) := []
  languages : List (String × Nat) := []
  framework : String := ""
  entry_points : List String := []
  dependency_files : List String := []
  primary_language : String := ""
  total_files : Nat := 0
  total_dirs : Nat := 0
  original_url : String := ""
  fetched_file_path : Option String := none
  deriving Repr

/-! ### Structure analyzer (`RepoAnalyzer`, github_service.py lines 316-494) -/

/-- Python dict assignment `m[k] = v`: an existing key keeps its position
and gets the new value, a new key is appended. -/
def setKey (m : List (String × PyVal)) (k : String) (v : PyVal) : List (String × PyVal) :=
  if m.any (fun e => e.1 == k) then m.map (fun e => if e.1 == k then (k, v) else e)
  else m ++ [(k, v)]

/-- Lookup in a nested-tree dict. -/
def getKey (m : List (String × PyVal)) (k : String) : Option PyVal :=
  (m.find? (fun e => e.1 == k)).map (·.2)

/-- Python `s.split("/")` on a character list. -/
def splitSlash (cs : List Char) : List (List Char) :=
  match cs with
  | [] => [[]]
  | c :: rest =>
    let r := splitSlash rest
    if c == '/' then [] :: r
    else
      match r with
      | [] => [[c]]
      | h :: t => (c :: h) :: t

/-- One insertion of `_build_tree`'s inner loop: walk the path segments,
creating empty dicts for missing intermediate segments, and write the leaf
dict at the final segment.  Descending through an existing non-dict value
makes the source raise `TypeError`; that unreachable branch yields an empty
dict here. -/
def insertTreePath (m : List (String × PyVal)) (parts : List String) (leaf : PyVal) :
    List (String × PyVal) :=
  match parts with
  | [] => m
  | [part] => setKey m part leaf
  | part :: rest =>
    let sub : List (String × PyVal) :=
      match getKey m part with
      | some (PyVal.dict d) => d
      | some _ => []
      | none => []
    setKey m part (PyVal.dict (insertTreePath sub rest leaf))

/-- Embedding of `RepoAnalyzer._build_tree` (lines 416-436). -/
def build_tree (files : List GitHubFile) : List (String × PyVal) :=
  files.foldl (fun tree f =>
    insertTreePath tree ((splitSlash f.path.data).map (fun l => (⟨l⟩ : String)))
      (PyVal.dict [("type", PyVal.s f.type), ("size", PyVal.n f.size), ("path", PyVal.s f.path)]))
    []

/-- `RepoAnalyzer.FRAMEWORK_PATTERNS`, in definition order. -/
def FRAMEWORK_PATTERNS : List (String × List String) :=
  [("fastapi", ["main.py", "app.py", "requirements.txt"]),
   ("flask", ["app.py", "wsgi.py", "requirements.txt"]),
   ("django", ["manage.py", "settings.py", "urls.py"]),
   ("express", ["index.js", "app.js", "package.json"]),
   ("nextjs", ["next.config.js", "pages/", "app/"]),
   ("react", ["src/App.js", "src/App.tsx", "package.json"]),
   ("spring", ["pom.xml", "src/main/java/"]),
   ("rails", ["Gemfile", "config/routes.rb"])]

/-- Embedding of `RepoAnalyzer._detect_framework` (lines 438-455). -/
def detect_framework (files : List GitHubFile) (primary_language : String) : String :=
  let file_paths := files.map (·.path)
  let file_names := files.map (·.name)
  match FRAMEWORK_PATTERNS.find? (fun fw =>
      2 ≤ (fw.2.filter (fun p => file_paths.contains p || file_names.contains p)).length) with
  | some fw => fw.1
  | none =>
    if file_names.contains "requirements.txt" && primary_language == "Python" then
      if files.any (fun f => containsSub (lowerStr f.path).data "fastapi".data) then "fastapi"
      else if files.any (fun f => containsSub (lowerStr f.path).data "flask".data) then "flask"
      else ""
    else ""

/-- `RepoAnalyzer.ENTRY_POINTS`, in definition order. -/
def ENTRY_POINTS : List (String × List String) :=
  [("python", ["main.py", "app.py", "__main__.py", "run.py", "manage.py"]),
   ("javascript", ["index.js", "main.js", "app.js", "server.js"]),
   ("typescript", ["index.ts", "main.ts", "app.ts", "server.ts"])]

/-- The literal names of the cross-language scan of `_find_entry_points`. -/
def commonEntryNames : List String := ["main.py", "app.py", "index.js", "main.js", "server.js"]

/-- Value of the dict comprehension `{f.name: f.path for f in files}` at a
name: later files overwrite earlier ones, so this is the path of the LAST
file carrying the name. -/
def lastPathForName (files : List GitHubFile) (n : String) : Option String :=
  ((files.filter (fun f => f.name == n)).getLast?).map (·.path)

/-- One step of the first loop of `_find_entry_points`: append the
name-map's path for this canonical entry name when the name is present. -/
def record_entry (files : List GitHubFile) (acc : List String) (entry : String) : List String :=
  match lastPathForName files entry with
  | some p => acc ++ [p]
  | none => acc

/-- Embedding of `RepoAnalyzer._find_entry_points` (lines 457-475). -/
def find_entry_points (files : List GitHubFile) (primary_language : String) : List String :=
  let lang_key := if primary_language ≠ "" then lowerStr primary_language else ""
  let base :=
    match ENTRY_POINTS.find? (fun e => e.1 == lang_key) with
    | some e => e.2.foldl (record_entry files) []
    | none => []
  let withCommon := files.foldl (fun acc f =>
    if commonEntryNames.contains f.name && !(acc.contains f.path) then acc ++ [f.path]
    else acc) base
  withCommon.take 5

/-- `RepoAnalyzer.DEPENDENCY_FILES`, in definition order. -/
def DEPENDENCY_FILES : List (String × List String) :=
  [("python", ["requirements.txt", "setup.py", "pyproject.toml", "Pipfile"]),
   ("javascript", ["package.json", "yarn.lock", "package-lock.json"]),
   ("java", ["pom.xml", "build.gradle"]),
   ("ruby", ["Gemfile"]),
   ("rust", ["Cargo.toml"]),
   ("go", ["go.mod", "go.sum"])]

/-- Embedding of `RepoAnalyzer._find_dependencies` (lines 477-487). -/
def find_dependencies (files : List GitHubFile) : List String :=
  let file_names := files.map (·.name)
  DEPENDENCY_FILES.foldl (fun deps lang =>
    lang.2.foldl (fun ds dep => if file_names.contains dep then ds ++ [dep] else ds) deps) []

/-! ### Remote oracle

The network layer is an oracle standing for the four `GitHubClient`
operations; `getFileContent` takes `(owner, repo, path, branch)` in the
source's argument order. -/

structure Remote where
  getRepo : String → String → Except GError GitHubRepo
  getTree : String → String → String → Except GError (List GitHubFile)
  getLanguages : String → String → Except GError (List (String × Nat))
  getFileContent : String → String → String → String → Except GError String

namespace RepoAnalyzer

/-- Embedding of `RepoAnalyzer.analyze` (lines 367-414). -/
def analyze (rm : Remote) (parsed_url : ParsedGitHubURL) : Except GError RepoStructure :=
  match rm.getRepo parsed_url.owner parsed_url.repo with
  | .error e => .error e
  | .ok repo =>
    let branch := pyOrStr parsed_url.branch repo.default_branch
    match rm.getTree parsed_url.owner parsed_url.repo branch with
    | .error e => .error e
    | .ok files =>
      match rm.getLanguages parsed_url.owner parsed_url.repo with
      | .error e => .error e
      | .ok languages =>
        .ok { repo := repo, files := files, tree := build_tree files,
              languages := languages,
              dependencies := find_dependencies files,
              framework := detect_framework files repo.language,
              entry_points := find_entry_points files repo.language,
              total_files := (files.filter (fun f => f.type == "file")).length,
              total_dirs := (files.filter (fun f => f.type == "dir")).length }

end RepoAnalyzer

/-! ### File selection (github_service.py lines 619-694) -/

/-- The alternation bases of the first `PRIORITY_FILE_PATTERNS` entry. -/
def PRIORITY_BASES : List String := ["main", "app", "index", "server", "manage"]

/-- The alternation extensions of the first `PRIORITY_FILE_PATTERNS` entry. -/
def PRIORITY_EXTS : List String := ["py", "js", "ts"]

/-- The exact-name patterns of `PRIORITY_FILE_PATTERNS`. -/
def PRIORITY_EXACT : List String :=
  ["requirements.txt", "package.json", "pyproject.toml", "Dockerfile", ".env.example"]

/-- Match of a `^lit$` pattern under `re.match`: Python's `$` also accepts
one trailing newline. -/
def matchesExactRe (pat n : String) : Bool := n == pat || n == pat ++ "\n"

/-- Embedding of `_is_priority_file` (lines 632-634). -/
def is_priority_file (path : String) : Bool :=
  let n := baseName path
  PRIORITY_BASES.any (fun b => PRIORITY_EXTS.any (fun e => matchesExactRe (b ++ "." ++ e) n))
    || PRIORITY_EXACT.any (fun pat => matchesExactRe pat n)

/-- The `CODE_EXTS` set of `_is_code_file`. -/
def CODE_EXTS : List String := [".py", ".js", ".ts", ".jsx", ".tsx", ".java", ".go", ".rs", ".rb"]

/-- String suffix test (Python `str.endswith`). -/
def endsWithStr (s sfx : String) : Bool := isPrefList sfx.data.reverse s.data.reverse

/-- Embedding of `_is_code_file` (lines 637-639). -/
def is_code_file (path : String) : Bool := CODE_EXTS.any (fun ext => endsWithStr path ext)

/-- `MAX_FILES_TO_FETCH` (line 628). -/
def MAX_FILES_TO_FETCH : Nat := 20

/-- `MAX_FILE_SIZE_BYTES` (line 629). -/
def MAX_FILE_SIZE_BYTES : Nat := 100000

/-- The deduplicate-and-cap loop of `build_repo_context` (lines 688-695):
append each unseen path and stop as soon as `cap` entries are collected
(the loop's local `capped`-after-this-step value is inlined into the two
membership branches). -/
def dedupCapLoop (cap : Nat) : List String → List String → List String
  | [], acc => acc
  | p :: ps, acc =>
    if acc.contains p then
      if cap ≤ acc.length then acc else dedupCapLoop cap ps acc
    else
      if cap ≤ (acc ++ [p]).length then acc ++ [p] else dedupCapLoop cap ps (acc ++ [p])

/-- The `if specific_file and specific_file not in priority` prepend of
lines 682-683: the one-element or empty front of the fetch list (Python
string truthiness makes an empty path fall through). -/
def explicit_first (priority : List String) : Option String → List String
  | some sf => if sf ≠ "" && !(priority.contains sf) then [sf] else []
  | none => []

/-- The file-selection block of `build_repo_context` (lines 673-695),
factored as the pure function it computes: priority files, then code
files, with an explicitly requested file prepended when it is not a member
of the priority list, deduplicated and capped. -/
def select_files (all_file_paths : List String) (specific_file : Option String) (cap : Nat) :
    List String :=
  let priority := all_file_paths.filter is_priority_file
  let code_files := all_file_paths.filter (fun p => is_code_file p && !(priority.contains p))
  let to_fetch := explicit_first priority specific_file ++ priority ++ code_files
  dedupCapLoop cap to_fetch []

/-! ### Snapshot builder (`build_repo_context`, github_service.py lines 642-729) -/

/-- Embedding of the nested `_fetch_one` (lines 700-709): any fetch error
and any body over the byte cap degrade to the pair `(path, "")`, which the
dict comprehension then drops. -/
def fetch_one (rm : Remote) (owner repo branch path : String) : String × String :=
  match rm.getFileContent owner repo path branch with
  | .ok content =>
    if content.utf8ByteSize ≤ MAX_FILE_SIZE_BYTES then (path, content) else (path, "")
  | .error _ => (path, "")

/-- The snapshot-assembly tail of `build_repo_context` (lines 658-729),
run once the URL has parsed and the metadata/tree/language fetches have
succeeded. -/
def build_assemble (rm : Remote) (url : String) (parsed : ParsedGitHubURL)
    (st : RepoStructure) : RepoContext :=
  let branch := pyOrStr parsed.branch st.repo.default_branch
  let meta : RepoMeta :=
    { owner := parsed.owner, name := st.repo.name, full_name := st.repo.full_name,
      description := st.repo.description, stars := st.repo.stars,
      default_branch := branch, language := st.repo.language, topics := st.repo.topics }
  let all_file_paths := (st.files.filter (fun f => f.type == "file")).map (·.path)
  let specific_file : Option String := if parsed.is_file then some parsed.path else none
  let capped := select_files all_file_paths specific_file MAX_FILES_TO_FETCH
  let results := capped.map (fetch_one rm parsed.owner st.repo.name branch)
  let file_contents := results.filter (fun pc => pc.2 ≠ "")
  { meta := meta, tree := st.tree, files := all_file_paths,
    file_contents := file_contents, languages := st.languages,
    framework := st.framework, entry_points := st.entry_points,
    dependency_files := st.dependencies,
    primary_language := if st.repo.language ≠ "" then lowerStr st.repo.language else "",
    total_files := st.total_files, total_dirs := st.total_dirs,
    original_url := url, fetched_file_path := specific_file }

/-- Embedding of `build_repo_context` (lines 642-729). -/
def build_repo_context (rm : Remote) (url : String) : Except GError RepoContext :=
  match GitHubURLParser.parse url with
  | none => .error (GError.invalid ("Invalid GitHub URL: " ++ url))
  | some parsed =>
    match RepoAnalyzer.analyze rm parsed with
    | .error e => .error e
    | .ok st => .ok (build_assemble rm url parsed st)

/-! ### Conversation context and cache guard (context.py, preprocessing.py) -/

/-- The per-conversation mutable context (`CopilotContext` pydantic model),
with exactly the fields context.py declares.  `github_file_content` is NOT
among them: preprocessing.py assigns it anyway (lines 63 and 88), and
pydantic raises `ValueError` on assignment to an undeclared field, so those
statements raise instead of updating — see `PyCallResult` below. -/
structure CopilotContext where
  repo_context : Option RepoContext := none
  github_url : Option String := none
  github_owner : Option String := none
  github_repo : Option String := none
  github_branch : Option String := none
  project_name : Option String := none
  repo_path : Option String := none
  current_file : Option String := none
  language : Option String := none
  framework : Option String := none
  error_message : Option String := none
  stack_trace : Option String := none
  error_type : Option String := none
  affected_endpoint : Option String := none
  diagnosis_report : Option String := none
  code_smells : Option (List String) := none
  refactoring_suggestions : Option (List (List (String × String))) := none
  complexity_score : Option Float := none
  test_coverage : Option Float := none
  test_framework : Option String := none
  generated_tests : Option (List (List (String × String))) := none
  load_test_config : Option (List (String × String)) := none
  vulnerabilities : Option (List (List (String × String))) := none
  security_score : Option Float := none
  rate_limit_config : Option (List (String × String)) := none
  dependency_audit : Option (List (List (String × String))) := none
  documentation_type : Option String := none
  generated_docs : Option String := none
  deriving Repr

/-- The cache-guard test of `preprocess_user_input` (preprocessing.py lines
50-58): a snapshot and a nonempty URL are loaded, both URLs parse, and
owner and repo name agree. -/
def same_repo_loaded (ctx : CopilotContext) (url : String) : Bool :=
  match ctx.repo_context, ctx.github_url with
  | some _, some gu =>
    gu ≠ "" &&
      (match GitHubURLParser.parse gu, GitHubURLParser.parse url with
       | some pe, some pn => pe.owner == pn.owner && pe.repo == pn.repo
       | _, _ => false)
  | _, _ => false

/-- What a call mutating a shared `CopilotContext` leaves behind: the final
state of the context object, and the message of the exception that escaped,
if any.  Python mutates the caller's object field by field, so an exception
raised midway leaves the assignments made before it. -/
structure PyCallResult where
  ctx : CopilotContext
  exc : Option String
  deriving Repr

/-- The `ValueError` pydantic raises when preprocessing.py assigns
`github_file_content` (lines 63 and 88), a field `CopilotContext` does not
declare. -/
def githubFileContentFieldError : String :=
  "CopilotContext object has no field github_file_content"

/-- The rebuild branch of `preprocess_user_input` (lines 67-91): build a
fresh snapshot, give up silently on `GitHubError`, else inject the snapshot
and the derived fields into the context.  The declared-field assignments of
lines 75-83 and 87 succeed; the `github_file_content` assignment of line 88
then raises, so when the snapshot carries a (nonempty) fetched file path
the call ends with the `ValueError` escaping after `current_file` was set. -/
def apply_build (rm : Remote) (url : String) (ctx : CopilotContext) : PyCallResult :=
  match build_repo_context rm url with
  | .error _ => ⟨ctx, none⟩
  | .ok rc =>
    let ctx' := { ctx with
      repo_context := some rc,
      github_url := some url,
      github_owner := some rc.meta.owner,
      github_repo := some rc.meta.name,
      github_branch := some rc.meta.default_branch,
      project_name := some rc.meta.full_name,
      repo_path := some ("github.com/" ++ rc.meta.full_name),
      language := if rc.primary_language ≠ "" then some rc.primary_language else none,
      framework := if rc.framework ≠ "" then some rc.framework else none }
    match rc.fetched_file_path with
    | some fp =>
      if fp ≠ "" then
        ⟨{ ctx' with current_file := some fp }, some githubFileContentFieldError⟩
      else ⟨ctx', none⟩
    | none => ⟨ctx', none⟩

/-- Embedding of `preprocess_user_input` (preprocessing.py lines 31-92).
In the same-repository new-file branch, line 61 sets
`repo_context.fetched_file_path` (declared on `RepoContext`, so it
succeeds), then line 63 assigns the undeclared `github_file_content` and
raises; line 64 (`current_file`) is never reached. -/
def preprocess_user_input (rm : Remote) (user_text : String) (ctx : CopilotContext) :
    PyCallResult :=
  match extract_github_url user_text with
  | none => ⟨ctx, none⟩
  | some url =>
    if same_repo_loaded ctx url then
      match ctx.repo_context, GitHubURLParser.parse url with
      | some rc, some pn =>
        if pn.is_file && !(rc.fetched_file_path == some pn.path) then
          ⟨{ ctx with
             repo_context := some { rc with fetched_file_path := some pn.path } },
           some githubFileContentFieldError⟩
        else ⟨ctx, none⟩
      | _, _ => ⟨ctx, none⟩
    else apply_build rm url ctx

/-! ### Specification-side descriptions

These definitions restate parts of the algorithms in the words of the
specification, for comparison with the embedded source functions. -/

/-- A well-formed URL segment for an `[^/]+` capture: nonempty, without
slashes, and without whitespace (so that `strip` leaves it alone). -/
def segOK (s : String) : Prop :=
  s.data ≠ [] ∧ ∀ c ∈ s.data, notSlash c = true ∧ isSpaceChar c = false

/-- A well-formed path for a `(.+)` capture: nonempty and without
whitespace (slashes are allowed). -/
def pathOK (p : String) : Prop :=
  p.data ≠ [] ∧ ∀ c ∈ p.data, isSpaceChar c = false

/-- The components of a parsed reference the specification speaks about:
owner, repo, branch, path, and the three kind flags. -/
def refParts (x : ParsedGitHubURL) : String × String × String × String × Bool × Bool × Bool :=
  (x.owner, x.repo, x.branch, x.path, x.is_file, x.is_directory, x.is_repo_root)

/-- A nonempty slash-free character run: what an `[^/]+` group captures. -/
def segChars (l : List Char) : Prop := l ≠ [] ∧ ∀ c ∈ l, notSlash c = true

/-- A position where `(.+)` can match: the input starts with a character
other than a newline. -/
def headNotNl (l : List Char) : Prop := ∃ c t, l = c :: t ∧ notNl c = true

/-- The match condition of the five `GITHUB_PATTERNS` regular expressions,
as decompositions of the stripped, protocol-less character list of the URL.
Each `[^/]+` capture is a nonempty slash-free run followed by the next
literal slash of the pattern, so the decompositions are forced; a trailing
`(.+)` needs only a leading non-newline character (`re.match` leaves the
rest unconstrained); the two `$`-anchored patterns allow nothing, a slash,
or a slash and one final newline after the last capture. -/
def matchesShape (s : String) : Prop :=
  let clean := stripProto (pyStrip s.data)
  (∃ o r b tail, clean = ghHost ++ (o ++ '/' :: (r ++ ("/blob/".data ++ (b ++ '/' :: tail))))
      ∧ segChars o ∧ segChars r ∧ segChars b ∧ headNotNl tail) ∨
  (∃ o r b tail, clean = ghHost ++ (o ++ '/' :: (r ++ ("/tree/".data ++ (b ++ '/' :: tail))))
      ∧ segChars o ∧ segChars r ∧ segChars b ∧ headNotNl tail) ∨
  (∃ o r b tail, clean = ghHost ++ (o ++ '/' :: (r ++ ("/tree/".data ++ (b ++ tail))))
      ∧ segChars o ∧ segChars r ∧ segChars b ∧ optSlashEnd tail = true) ∨
  (∃ o r tail, clean = ghHost ++ (o ++ '/' :: (r ++ tail))
      ∧ segChars o ∧ segChars r ∧ optSlashEnd tail = true) ∨
  (∃ o r b tail, clean = rawHost ++ (o ++ '/' :: (r ++ ('/' :: (b ++ '/' :: tail))))
      ∧ segChars o ∧ segChars r ∧ segChars b ∧ headNotNl tail)

/-- First-seen-order deduplication of a list, skipping members of `acc`:
the specification's description of the deduplicate step. -/
def dedupFrom : List String → List String → List String
  | _, [] => []
  | acc, p :: ps =>
    if acc.contains p then dedupFrom acc ps else p :: dedupFrom (acc ++ [p]) ps

/-- Whether a path's fetch is kept by the batch step: the content request
succeeds, the body is nonempty, and the body is within the byte cap. -/
def fetch_accepted (rm : Remote) (owner repo branch path : String) : Bool :=
  match rm.getFileContent owner repo path branch with
  | .ok content => content ≠ "" && content.utf8ByteSize ≤ MAX_FILE_SIZE_BYTES
  | .error _ => false

/-- The canonical entry-point list `ENTRY_POINTS[lang_key]`, or `[]` when
the key is absent. -/
def entriesForLang (key : String) : List String :=
  match ENTRY_POINTS.find? (fun e => e.1 == key) with
  | some e => e.2
  | none => []

/-- The first phase of entry-point detection, described directly: for each
canonical filename, the path of the last file of the listing carrying that
name (the dict comprehension keeps the last write). -/
def canonicalEntryPaths (files : List GitHubFile) (entries : List String) : List String :=
  entries.filterMap (fun e => lastPathForName files e)

/-- The second phase of entry-point detection: scan the listing for the
cross-language entry names, appending paths not already recorded. -/
def appendCommonEntries (files : List GitHubFile) (base : List String) : List String :=
  files.foldl (fun acc f =>
    if commonEntryNames.contains f.name && !(acc.contains f.path) then acc ++ [f.path]
    else acc) base

/-! ### Concrete fixtures used by witnesses and counterexamples -/

/-- A remote whose every call fails; exercises paths that perform no fetch. -/
def rmNull : Remote :=
  { getRepo := fun _ _ => .error (GError.notFound "nf"),
    getTree := fun _ _ _ => .error (GError.notFound "nf"),
    getLanguages := fun _ _ => .error (GError.notFound "nf"),
    getFileContent := fun _ _ _ _ => .error (GError.notFound "nf") }

/-- Placeholder metadata for the unreachable arms of fixture definitions. -/
def metaDummy : RepoMeta := { owner := "", name := "", full_name := "" }

/-- A two-file listing where `b.py`'s fetch succeeds with empty content. -/
def rmSmall : Remote :=
  { getRepo := fun _ _ => .ok { owner := "acme", name := "widgets", full_name := "acme/widgets",
                                language := "Python", default_branch := "main" },
    getTree := fun _ _ _ => .ok [{ path := "a.py", name := "a.py" },
                                 { path := "b.py", name := "b.py" }],
    getLanguages := fun _ _ => .ok [("Python", 10)],
    getFileContent := fun _ _ p _ => if p == "b.py" then .ok "" else .ok "x" }

/-- URL under which `rmSmall` is snapshotted. -/
def urlSmall : String := "https://github.com/acme/widgets"

/-- The snapshot built from `rmSmall`. -/
def cSmall : RepoContext :=
  match build_repo_context rmSmall urlSmall with
  | .ok c => c
  | .error _ => { meta := metaDummy }

/-- A remote with an empty file tree whose content endpoint still serves
the explicitly requested file. -/
def rmEmptyTree : Remote :=
  { getRepo := fun _ _ => .ok { owner := "acme", name := "widgets", full_name := "acme/widgets",
                                language := "", default_branch := "main" },
    getTree := fun _ _ _ => .ok [],
    getLanguages := fun _ _ => .ok [],
    getFileContent := fun _ _ _ _ => .ok "x" }

/-- Blob URL requesting a file that the (empty) tree does not list. -/
def urlEmptyTree : String := "https://github.com/acme/widgets/blob/main/a.py"

/-- Twenty single-segment code files `f1.py` … `f20.py`. -/
def files20 : List GitHubFile :=
  (List.range 20).map (fun i =>
    let p := "f" ++ toString (i + 1) ++ ".py"
    { path := p, name := p })

/-- The five paths of `files20` whose fetch raises NotFound. -/
def failing5 : List String := ["f3.py", "f7.py", "f11.py", "f15.py", "f19.py"]

/-- A remote serving `files20` where exactly the five paths of `failing5`
fail with NotFound. -/
def rm20 : Remote :=
  { getRepo := fun _ _ => .ok { owner := "acme", name := "widgets", full_name := "acme/widgets",
                                language := "Python", default_branch := "main" },
    getTree := fun _ _ _ => .ok files20,
    getLanguages := fun _ _ => .ok [("Python", 10)],
    getFileContent := fun _ _ p _ =>
      if failing5.contains p then .error (GError.notFound ("File not found: " ++ p)) else .ok "c" }

/-- The snapshot built from `rm20`. -/
def c20 : RepoContext :=
  match build_repo_context rm20 urlSmall with
  | .ok c => c
  | .error _ => { meta := metaDummy }

/-- A remote whose metadata call is rate limited. -/
def rm403 : Remote :=
  { rmNull with getRepo := fun _ _ => .error (GError.rateLimited rateLimitMsg) }

/-- A remote whose repository metadata names default branch `master` and
whose tree endpoint only answers for branch `main`. -/
def rmC3 : Remote :=
  { getRepo := fun _ _ => .ok { owner := "acme", name := "widgets", full_name := "acme/widgets",
                                language := "Python", default_branch := "master" },
    getTree := fun _ _ br => if br == "main" then .ok [] else .error (GError.notFound "wrong branch"),
    getLanguages := fun _ _ => .ok [],
    getFileContent := fun _ _ _ _ => .ok "x" }

/-- A loaded snapshot for `acme/widgets` used by the cache-guard witness. -/
def rcDemo : RepoContext :=
  { meta := { owner := "acme", name := "widgets", full_name := "acme/widgets",
              default_branch := "main", language := "Python" },
    files := ["app.py", "other.py"],
    file_contents := [("app.py", "print(1)"), ("other.py", "print(2)")],
    fetched_file_path := some "app.py" }

/-- A conversation context holding `rcDemo`. -/
def ctxDemo : CopilotContext :=
  { repo_context := some rcDemo,
    github_url := some "https://github.com/acme/widgets",
    github_owner := some "acme",
    github_repo := some "widgets",
    current_file := some "app.py" }

/-- Message referencing another file of the same repository. -/
def textSameRepo : String := "see https://github.com/acme/widgets/blob/main/other.py please"

/-- The two-`main.py` listing on which phase one records the last path. -/
def filesC6x : List GitHubFile :=
  [{ path := "src/main.py", name := "main.py" },
   { path := "lib/main.py", name := "main.py" }]

/-- A one-file listing for the entry-point witness. -/
def filesC6w : List GitHubFile :=
  [{ path := "src/main.py", name := "main.py" },
   { path := "tools/run.py", name := "run.py" }]

example : GitHubURLParser.parse "https://github.com/acme/widgets/blob/main/src/app.py" =
    some { owner := "acme", repo := "widgets", branch := "main", path := "src/app.py",
           is_file := true,
           original_url := "https://github.com/acme/widgets/blob/main/src/app.py",
           raw_url := "https://raw.githubusercontent.com/acme/widgets/main/src/app.py" } := by
  decide

example : GitHubURLParser.parse "https://github.com/acme/widgets" =
    some { owner := "acme", repo := "widgets", branch := "main", path := "",
           is_repo_root := true,
           original_url := "https://github.com/acme/widgets" } := by
  decide

example : GitHubURLParser.parse "https://example.com/owner/repo" = none := by decide

example : extract_github_url "see https://github.com/a/b now" = some "https://github.com/a/b" := by
  decide

/-! ### General list lemmas -/

theorem takeWhile_append_all {p : Char → Bool} (l r : List Char)
    (h : ∀ x ∈ l, p x = true) : (l ++ r).takeWhile p = l ++ r.takeWhile p := by
  induction l with
  | nil => rfl
  | cons c t ih =>
    have hc : p c = true := h c (by simp)
    simp only [List.cons_append, List.takeWhile_cons, hc, if_true]
    exact congrArg (c :: ·) (ih (fun x hx => h x (by simp [hx])))

theorem dropWhile_append_all {p : Char → Bool} (l r : List Char)
    (h : ∀ x ∈ l, p x = true) : (l ++ r).dropWhile p = r.dropWhile p := by
  induction l with
  | nil => rfl
  | cons c t ih =>
    have hc : p c = true := h c (by simp)
    simp only [List.cons_append, List.dropWhile_cons, hc, if_true]
    exact ih (fun x hx => h x (by simp [hx]))

theorem takeWhile_all {p : Char → Bool} (l : List Char)
    (h : ∀ x ∈ l, p x = true) : l.takeWhile p = l := by
  have := takeWhile_append_all (p := p) l [] h
  simpa using this

theorem dropWhile_all {p : Char → Bool} (l : List Char)
    (h : ∀ x ∈ l, p x = true) : l.dropWhile p = [] := by
  have := dropWhile_append_all (p := p) l [] h
  simpa using this

theorem dropWhile_not_head {p : Char → Bool} (l : List Char)
    (h : l.takeWhile p = []) : l.dropWhile p = l := by
  cases l with
  | nil => rfl
  | cons c t =>
    by_cases hc : p c = true
    · simp [List.takeWhile_cons, hc] at h
    · simp [List.dropWhile_cons, hc]

theorem dropLit_self_append (lit rest : List Char) : dropLit lit (lit ++ rest) = some rest := by
  induction lit with
  | nil => rfl
  | cons c t ih => simp [dropLit, ih]

theorem pyStrip_all (cs : List Char) (h : ∀ c ∈ cs, isSpaceChar c = false) :
    pyStrip cs = cs := by
  unfold pyStrip
  have h1 : cs.dropWhile isSpaceChar = cs := by
    cases cs with
    | nil => rfl
    | cons c t => simp [List.dropWhile_cons, h c (by simp)]
  rw [h1]
  have h2 : cs.reverse.dropWhile isSpaceChar = cs.reverse := by
    cases hrev : cs.reverse with
    | nil => rfl
    | cons c t =>
      have hc : c ∈ cs := by
        have : c ∈ cs.reverse := by rw [hrev]; simp
        simpa using this
      simp [List.dropWhile_cons, h c hc]
  rw [h2, List.reverse_reverse]

/-! ### Selection lemmas: the dedup-and-cap loop -/

theorem mem_dedupFrom {x : String} : ∀ {acc l : List String}, x ∈ dedupFrom acc l → x ∈ l := by
  intro acc l
  induction l generalizing acc with
  | nil => simp [dedupFrom]
  | cons p ps ih =>
    intro hx
    unfold dedupFrom at hx
    by_cases hc : acc.contains p
    · simp only [hc, if_true] at hx
      exact List.mem_cons_of_mem _ (ih hx)
    · simp only [hc, if_false] at hx
      rcases List.mem_cons.mp hx with h | h
      · simp [h]
      · exact List.mem_cons_of_mem _ (ih h)

theorem nodup_append_dedupFrom : ∀ (l acc : List String), acc.Nodup →
    (acc ++ dedupFrom acc l).Nodup := by
  intro l
  induction l with
  | nil => intro acc h; simpa [dedupFrom] using h
  | cons p ps ih =>
    intro acc h
    unfold dedupFrom
    by_cases hc : acc.contains p
    · simp only [hc, if_true]
      exact ih acc h
    · rw [if_neg hc]
      have hnp : p ∉ acc := by simpa using hc
      have h' : (acc ++ [p]).Nodup := by
        simp [List.nodup_append, h, hnp]
      have hres := ih (acc ++ [p]) h'
      rw [List.append_cons acc p (dedupFrom (acc ++ [p]) ps)]
      exact hres

theorem dedupCapLoop_eq (cap : Nat) : ∀ (l acc : List String), acc.length < cap →
    dedupCapLoop cap l acc = (acc ++ dedupFrom acc l).take cap := by
  intro l
  induction l with
  | nil =>
    intro acc hlt
    simp [dedupCapLoop, dedupFrom, List.take_of_length_le (Nat.le_of_lt hlt)]
  | cons p ps ih =>
    intro acc hlt
    unfold dedupCapLoop dedupFrom
    by_cases hc : acc.contains p
    · simp only [hc, if_true]
      have hnle : ¬ cap ≤ acc.length := Nat.not_le_of_lt hlt
      simp only [hnle, if_false]
      exact ih acc hlt
    · simp only [if_neg hc]
      have hstep : (acc ++ [p]).length = acc.length + 1 := by simp
      by_cases hfull : cap ≤ (acc ++ [p]).length
      · rw [if_pos hfull]
        have hlen : (acc ++ [p]).length = cap := by omega
        have hsw : (acc ++ p :: dedupFrom (acc ++ [p]) ps).take cap
            = ((acc ++ [p]) ++ dedupFrom (acc ++ [p]) ps).take cap := by
          rw [List.append_cons acc p (dedupFrom (acc ++ [p]) ps)]
        rw [hsw, ← hlen, List.take_left]
      · rw [if_neg hfull]
        have hlt' : (acc ++ [p]).length < cap := Nat.lt_of_not_le hfull
        rw [ih (acc ++ [p]) hlt', List.append_cons acc p (dedupFrom (acc ++ [p]) ps)]

theorem dedupFrom_nil_cons (p : String) (ps : List String) :
    dedupFrom [] (p :: ps) = p :: dedupFrom [p] ps := by
  simp [dedupFrom]

/-- CLAIM C2 (counterexample): when the explicitly requested path is itself a
member of the priority list, it is not moved to the front: for the listing
`["main.py", "app.py"]` with explicit path `"app.py"`, the selection starts
with `"main.py"`, so the claim's "has the explicit path first whenever one is
given" fails. -/
theorem claim_c2_counterexample :
    ¬ ((select_files ["main.py", "app.py"] (some "app.py") 20).head? = some "app.py") := by
  decide

/-- CLAIM C2 (amended): the selection equals the deduplication (first-seen
order) of: the explicitly requested path when nonempty and not a member of
the priority list, then the priority matches in original order, then the
ordinary code files not already priority in original order — truncated to
the cap; the result has length at most the cap and no duplicates, and the
explicit path is first whenever it is given, nonempty, and not a member of
the priority list. -/
theorem claim_c2_select_spec (all : List String) (sf : Option String) (cap : Nat)
    (hcap : 0 < cap) :
    (select_files all sf cap =
      (dedupFrom []
        (explicit_first (all.filter is_priority_file) sf ++ all.filter is_priority_file
          ++ all.filter (fun p => is_code_file p && !((all.filter is_priority_file).contains p)))).take cap) ∧
    (select_files all sf cap).length ≤ cap ∧
    (select_files all sf cap).Nodup ∧
    (∀ s, sf = some s → s ≠ "" → (all.filter is_priority_file).contains s = false →
      (select_files all sf cap).head? = some s) := by
  have hmain : select_files all sf cap =
      (dedupFrom []
        (explicit_first (all.filter is_priority_file) sf ++ all.filter is_priority_file
          ++ all.filter (fun p => is_code_file p && !((all.filter is_priority_file).contains p)))).take cap := by
    simp only [select_files]
    rw [dedupCapLoop_eq cap _ [] (by simpa using hcap), List.nil_append]
  refine ⟨hmain, ?_, ?_, ?_⟩
  · rw [hmain]; exact List.length_take_le ..
  · rw [hmain]
    exact List.Nodup.sublist (List.take_sublist ..)
      (by simpa using nodup_append_dedupFrom _ [] (by simp))
  · intro s hsf hne hnp
    subst hsf
    have h1 : decide (s ≠ "") = true := decide_eq_true hne
    have h2 : (!((all.filter is_priority_file).contains s)) = true := by rw [hnp]; rfl
    have hcond : (decide (s ≠ "") && !((all.filter is_priority_file).contains s)) = true := by
      rw [h1, h2]; rfl
    simp only [select_files, explicit_first]
    rw [dedupCapLoop_eq cap _ [] (by simpa using hcap), List.nil_append]
    rw [if_pos hcond, List.singleton_append, List.cons_append, dedupFrom_nil_cons]
    cases cap with
    | zero => omega
    | succ n => rw [List.take_succ_cons]; rfl

/-- CLAIM C2 (witness): at the listing `["a.py", "src/special.py"]` with
explicit path `"src/special.py"` (not a priority name) and cap 20, the
selection puts the explicit path first. -/
theorem claim_c2_witness :
    0 < 20 ∧
    (select_files ["a.py", "src/special.py"] (some "src/special.py") 20).head?
      = some "src/special.py" :=
  ⟨by decide,
   (claim_c2_select_spec ["a.py", "src/special.py"] (some "src/special.py") 20
      (by decide)).2.2.2 "src/special.py" rfl (by decide) (by decide)⟩

/-! ### Snapshot-builder lemmas -/

theorem build_assemble_file_contents (rm : Remote) (url : String) (parsed : ParsedGitHubURL)
    (st : RepoStructure) :
    (build_assemble rm url parsed st).file_contents =
      ((select_files ((st.files.filter (fun f => f.type == "file")).map (·.path))
          (if parsed.is_file then some parsed.path else none) MAX_FILES_TO_FETCH).map
        (fetch_one rm parsed.owner st.repo.name (pyOrStr parsed.branch st.repo.default_branch))).filter
        (fun pc => pc.2 ≠ "") := rfl

theorem build_assemble_files (rm : Remote) (url : String) (parsed : ParsedGitHubURL)
    (st : RepoStructure) :
    (build_assemble rm url parsed st).files
      = (st.files.filter (fun f => f.type == "file")).map (·.path) := rfl

theorem build_assemble_fetched (rm : Remote) (url : String) (parsed : ParsedGitHubURL)
    (st : RepoStructure) :
    (build_assemble rm url parsed st).fetched_file_path
      = (if parsed.is_file then some parsed.path else none) := rfl

theorem build_assemble_owner (rm : Remote) (url : String) (parsed : ParsedGitHubURL)
    (st : RepoStructure) :
    (build_assemble rm url parsed st).meta.owner = parsed.owner := rfl

theorem build_assemble_name (rm : Remote) (url : String) (parsed : ParsedGitHubURL)
    (st : RepoStructure) :
    (build_assemble rm url parsed st).meta.name = st.repo.name := rfl

theorem build_assemble_branch (rm : Remote) (url : String) (parsed : ParsedGitHubURL)
    (st : RepoStructure) :
    (build_assemble rm url parsed st).meta.default_branch
      = pyOrStr parsed.branch st.repo.default_branch := rfl

theorem build_ok_destruct {rm : Remote} {url : String} {c : RepoContext}
    (h : build_repo_context rm url = .ok c) :
    ∃ parsed st, GitHubURLParser.parse url = some parsed ∧
      RepoAnalyzer.analyze rm parsed = .ok st ∧ c = build_assemble rm url parsed st := by
  unfold build_repo_context at h
  split at h
  · exact absurd h (by simp)
  · rename_i parsed hp
    split at h
    · exact absurd h (by simp)
    · rename_i st ha
      exact ⟨parsed, st, hp, ha, (Except.ok.inj h).symm⟩

theorem fetch_one_fst (rm : Remote) (o r br p : String) : (fetch_one rm o r br p).1 = p := by
  unfold fetch_one
  split
  · split <;> rfl
  · rfl

theorem fetch_one_snd_ne (rm : Remote) (o r br p : String) :
    decide ((fetch_one rm o r br p).2 ≠ "") = fetch_accepted rm o r br p := by
  unfold fetch_one fetch_accepted
  split
  · rename_i content heq
    by_cases h : content.utf8ByteSize ≤ MAX_FILE_SIZE_BYTES
    · simp [h]
    · simp [h]
  · simp

theorem map_fst_filter_ne (f : String → String × String) (hf : ∀ p, (f p).1 = p) :
    ∀ l : List String, ((l.map f).filter (fun pc => pc.2 ≠ "")).map Prod.fst
      = l.filter (fun p => decide ((f p).2 ≠ "")) := by
  intro l
  induction l with
  | nil => rfl
  | cons p ps ih =>
    simp only [List.map_cons, List.filter_cons]
    by_cases h : (f p).2 ≠ ""
    · simp only [h, decide_eq_true h, if_true, List.map_cons, ih, hf p]
    · simp only [decide_eq_false h, if_false, Bool.false_eq_true, ih]

theorem mem_dedupCapLoop {x : String} (cap : Nat) :
    ∀ (l acc : List String), x ∈ dedupCapLoop cap l acc → x ∈ acc ∨ x ∈ l := by
  intro l
  induction l with
  | nil => intro acc h; unfold dedupCapLoop at h; exact Or.inl h
  | cons p ps ih =>
    intro acc h
    unfold dedupCapLoop at h
    by_cases hc : acc.contains p = true
    · rw [if_pos hc] at h
      by_cases hcap' : cap ≤ acc.length
      · rw [if_pos hcap'] at h; exact Or.inl h
      · rw [if_neg hcap'] at h
        rcases ih acc h with h' | h'
        · exact Or.inl h'
        · exact Or.inr (List.mem_cons_of_mem _ h')
    · rw [if_neg hc] at h
      by_cases hcap' : cap ≤ (acc ++ [p]).length
      · rw [if_pos hcap'] at h
        rcases List.mem_append.mp h with h' | h'
        · exact Or.inl h'
        · exact Or.inr (by simp [List.mem_singleton.mp h'])
      · rw [if_neg hcap'] at h
        rcases ih (acc ++ [p]) h with h' | h'
        · rcases List.mem_append.mp h' with h'' | h''
          · exact Or.inl h''
          · exact Or.inr (by simp [List.mem_singleton.mp h''])
        · exact Or.inr (List.mem_cons_of_mem _ h')

theorem explicit_first_mem {priority : List String} {sf : Option String} {x : String}
    (h : x ∈ explicit_first priority sf) : sf = some x := by
  cases sf with
  | none => simp [explicit_first] at h
  | some s =>
    simp only [explicit_first] at h
    split at h
    · rw [List.mem_singleton.mp h]
    · simp at h

theorem select_files_mem {all : List String} {sf : Option String} {cap : Nat} {x : String}
    (h : x ∈ select_files all sf cap) : x ∈ all ∨ sf = some x := by
  simp only [select_files] at h
  rcases mem_dedupCapLoop cap _ [] h with h' | h'
  · simp at h'
  · rcases List.mem_append.mp h' with h1 | h1
    · rcases List.mem_append.mp h1 with h2 | h2
      · exact Or.inr (explicit_first_mem h2)
      · exact Or.inl (List.mem_filter.mp h2).1
    · exact Or.inl (List.mem_filter.mp h1).1

theorem build_keys_eq {rm : Remote} {url : String} {c : RepoContext}
    (h : build_repo_context rm url = .ok c) :
    c.file_contents.map Prod.fst =
      (select_files c.files c.fetched_file_path MAX_FILES_TO_FETCH).filter
        (fun p => fetch_accepted rm c.meta.owner c.meta.name c.meta.default_branch p) := by
  obtain ⟨parsed, st, hp, ha, hc⟩ := build_ok_destruct h
  subst hc
  rw [build_assemble_file_contents, build_assemble_files, build_assemble_fetched,
    build_assemble_owner, build_assemble_name, build_assemble_branch,
    map_fst_filter_ne _ (fetch_one_fst rm parsed.owner st.repo.name
      (pyOrStr parsed.branch st.repo.default_branch))]
  have hfun : (fun p => decide ((fetch_one rm parsed.owner st.repo.name
        (pyOrStr parsed.branch st.repo.default_branch) p).2 ≠ ""))
      = (fun p => fetch_accepted rm parsed.owner st.repo.name
          (pyOrStr parsed.branch st.repo.default_branch) p) :=
    funext (fun p => fetch_one_snd_ne rm parsed.owner st.repo.name _ p)
  rw [hfun]

theorem build_contents_mem {rm : Remote} {url : String} {c : RepoContext}
    (h : build_repo_context rm url = .ok c) :
    ∀ p v, (p, v) ∈ c.file_contents →
      rm.getFileContent c.meta.owner c.meta.name p c.meta.default_branch = .ok v ∧
      v ≠ "" ∧ v.utf8ByteSize ≤ MAX_FILE_SIZE_BYTES := by
  obtain ⟨parsed, st, hp, ha, hc⟩ := build_ok_destruct h
  subst hc
  intro p v hmem
  rw [build_assemble_file_contents] at hmem
  rw [build_assemble_owner, build_assemble_name, build_assemble_branch]
  rcases List.mem_filter.mp hmem with ⟨hmap, hne⟩
  have hv : v ≠ "" := of_decide_eq_true hne
  rcases List.mem_map.mp hmap with ⟨q, hq, hfq⟩
  have hq1 : q = p := by
    rw [← fetch_one_fst rm parsed.owner st.repo.name
      (pyOrStr parsed.branch st.repo.default_branch) q, hfq]
  subst hq1
  unfold fetch_one at hfq
  split at hfq
  · rename_i content heq
    split at hfq
    · rename_i hsz
      have hcv : content = v := congrArg Prod.snd hfq
      subst hcv
      exact ⟨heq, hv, hsz⟩
    · exact absurd (congrArg Prod.snd hfq).symm hv
  · exact absurd (congrArg Prod.snd hfq).symm hv

/-- CLAIM C1 (amended): for every successful build, the keys of the content
mapping are exactly the selected paths whose fetch succeeds with NONEMPTY
content within the byte cap (order preserved); every stored value is the
fetched body, nonempty and within the cap; and once the URL parses and the
metadata/tree/language phase succeeds, `build` succeeds no matter what the
individual file fetches do — no per-file failure propagates. -/
theorem claim_c1_batch_isolation :
    (∀ (rm : Remote) (url : String) (c : RepoContext),
      build_repo_context rm url = .ok c →
      c.file_contents.map Prod.fst =
        (select_files c.files c.fetched_file_path MAX_FILES_TO_FETCH).filter
          (fun p => fetch_accepted rm c.meta.owner c.meta.name c.meta.default_branch p) ∧
      (∀ p v, (p, v) ∈ c.file_contents →
        rm.getFileContent c.meta.owner c.meta.name p c.meta.default_branch = .ok v ∧
        v ≠ "" ∧ v.utf8ByteSize ≤ MAX_FILE_SIZE_BYTES)) ∧
    (∀ (rm : Remote) (url : String) (parsed : ParsedGitHubURL) (st : RepoStructure),
      GitHubURLParser.parse url = some parsed →
      RepoAnalyzer.analyze rm parsed = .ok st →
      (build_repo_context rm url).isOk = true) := by
  constructor
  · intro rm url c h
    exact ⟨build_keys_eq h, build_contents_mem h⟩
  · intro rm url parsed st hp ha
    simp [build_repo_context, hp, ha, Except.isOk, Except.toBool]

/-- CLAIM C1 (counterexample): a selected path whose fetch SUCCEEDS within
the byte cap can still be excluded — when the body is empty.  With
`rmSmall`, `b.py` is selected and fetches `.ok ""` (0 bytes, within the
cap), yet the content mapping holds only `a.py`; so the claim's "every
other selected path whose fetch succeeds within the cap is present" is
false as stated. -/
theorem claim_c1_counterexample :
    (build_repo_context rmSmall urlSmall).map (fun c => c.file_contents.map Prod.fst)
      = .ok ["a.py"] ∧
    rmSmall.getFileContent "acme" "widgets" "b.py" "main" = .ok "" ∧
    ("" : String).utf8ByteSize ≤ MAX_FILE_SIZE_BYTES ∧
    "b.py" ∈ select_files ["a.py", "b.py"] none MAX_FILES_TO_FETCH :=
  ⟨rfl, rfl, by decide, by decide⟩

/-- CLAIM C1 (witness): the 5-of-20 scenario.  Twenty selected files, the
five of `failing5` raise NotFound, and the content mapping holds exactly
the other fifteen paths; the characterization theorem applies to this
build ("" bodies do not occur here). -/
theorem claim_c1_witness :
    build_repo_context rm20 urlSmall = .ok c20 ∧
    c20.file_contents.map Prod.fst =
      ["f1.py", "f2.py", "f4.py", "f5.py", "f6.py", "f8.py", "f9.py", "f10.py",
       "f12.py", "f13.py", "f14.py", "f16.py", "f17.py", "f18.py", "f20.py"] ∧
    c20.file_contents.map Prod.fst =
      (select_files c20.files c20.fetched_file_path MAX_FILES_TO_FETCH).filter
        (fun p => fetch_accepted rm20 c20.meta.owner c20.meta.name c20.meta.default_branch p) :=
  ⟨rfl, rfl, (claim_c1_batch_isolation.1 rm20 urlSmall c20 rfl).1⟩

/-- CLAIM C4 (amended): the keys of the content mapping are contained in
the full file listing EXCEPT possibly the explicitly requested path, which
is prepended to the selection without a membership check against the
listing. -/
theorem claim_c4_keys_subset :
    ∀ (rm : Remote) (url : String) (c : RepoContext),
      build_repo_context rm url = .ok c →
      ∀ p ∈ c.file_contents.map Prod.fst, p ∈ c.files ∨ c.fetched_file_path = some p := by
  intro rm url c h p hp
  rw [build_keys_eq h] at hp
  exact select_files_mem (List.mem_filter.mp hp).1

/-- CLAIM C4 (counterexample): with an empty file tree and a blob URL whose
content fetch succeeds, the snapshot's content mapping holds `a.py` while
the full listing is empty, so the claimed inclusion of keys in the listing
fails for the explicitly requested file. -/
theorem claim_c4_counterexample :
    (build_repo_context rmEmptyTree urlEmptyTree).map
        (fun c => (c.file_contents.map Prod.fst, c.files)) = .ok (["a.py"], []) ∧
    ¬ ("a.py" ∈ ([] : List String)) :=
  ⟨rfl, by simp⟩

/-- CLAIM C4 (witness): on the `rmSmall` build every content key is in the
listing or is the requested file. -/
theorem claim_c4_witness :
    build_repo_context rmSmall urlSmall = .ok cSmall ∧
    (∀ p ∈ cSmall.file_contents.map Prod.fst,
      p ∈ cSmall.files ∨ cSmall.fetched_file_path = some p) :=
  ⟨rfl, claim_c4_keys_subset rmSmall urlSmall cSmall rfl⟩

/-- CLAIM C9: every stored content value is nonempty and within the
100000-byte cap, and a path whose fetch succeeds with empty content is
absent from the mapping exactly as a failed fetch would be. -/
theorem claim_c9_contents_invariant :
    ∀ (rm : Remote) (url : String) (c : RepoContext),
      build_repo_context rm url = .ok c →
      (∀ p v, (p, v) ∈ c.file_contents → v ≠ "" ∧ v.utf8ByteSize ≤ MAX_FILE_SIZE_BYTES) ∧
      (∀ p, rm.getFileContent c.meta.owner c.meta.name p c.meta.default_branch = .ok "" →
        ¬ p ∈ c.file_contents.map Prod.fst) := by
  intro rm url c h
  constructor
  · intro p v hm
    exact (build_contents_mem h p v hm).2
  · intro p hok hmem
    rw [build_keys_eq h] at hmem
    have hacc := (List.mem_filter.mp hmem).2
    unfold fetch_accepted at hacc
    rw [hok] at hacc
    simp at hacc

/-- CLAIM C9 (witness): in the `rmSmall` build, `b.py` fetches `.ok ""` and
is absent from the mapping. -/
theorem claim_c9_witness :
    build_repo_context rmSmall urlSmall = .ok cSmall ∧
    rmSmall.getFileContent cSmall.meta.owner cSmall.meta.name "b.py" cSmall.meta.default_branch
      = .ok "" ∧
    ¬ "b.py" ∈ cSmall.file_contents.map Prod.fst :=
  ⟨rfl, rfl, (claim_c9_contents_invariant rmSmall urlSmall cSmall rfl).2 "b.py" rfl⟩

/-! ### Claim C3: default-branch resolution for bare repo URLs -/

/-- CLAIM C3 (code bug evidence): pattern 3 of the parser stores the fixed
literal `"main"` for a bare owner/repo URL (line 140, annotated "Will be
updated from API"), and `parsed.branch or repo.default_branch` (lines 373
and 658) never substitutes the repository's real default branch because
`"main"` is truthy.  With a remote whose metadata names default branch
`master` and whose tree endpoint only answers for branch `main`, the build
succeeds (so the tree was fetched at `main`) and the snapshot records
branch `main`, not `master`. -/
theorem claim_c3_bare_branch_divergence :
    (GitHubURLParser.parse "https://github.com/acme/widgets").map (fun x => x.branch)
      = some "main" ∧
    pyOrStr "main" "master" = "main" ∧
    rmC3.getRepo "acme" "widgets"
      = .ok { owner := "acme", name := "widgets", full_name := "acme/widgets",
              language := "Python", default_branch := "master" } ∧
    (build_repo_context rmC3 "https://github.com/acme/widgets").map
        (fun c => c.meta.default_branch) = .ok "main" :=
  ⟨rfl, rfl, rfl, rfl⟩

/-! ### Claim C10: preprocessing survives build failure -/

/-- CLAIM C10: when a URL is extracted, the cache guard does not hit, and
the snapshot build fails with a GitHubError, `preprocess_user_input`
returns the context unchanged — the previously loaded snapshot (if any)
stays intact. -/
theorem claim_c10_build_failure_keeps_context :
    ∀ (rm : Remote) (text : String) (ctx : CopilotContext) (url : String) (e : GError),
      extract_github_url text = some url →
      same_repo_loaded ctx url = false →
      build_repo_context rm url = .error e →
      preprocess_user_input rm text ctx = ⟨ctx, none⟩ := by
  intro rm text ctx url e hex hsame hbuild
  simp only [preprocess_user_input, hex, hsame, Bool.false_eq_true, if_false,
    apply_build, hbuild]

/-- CLAIM C10 (witness): on an empty context, a message with a URL, and a
remote whose metadata call fails, preprocessing returns the context as it
was. -/
theorem claim_c10_witness :
    extract_github_url "try https://github.com/a/b" = some "https://github.com/a/b" ∧
    same_repo_loaded ({} : CopilotContext) "https://github.com/a/b" = false ∧
    build_repo_context rmNull "https://github.com/a/b" = .error (GError.notFound "nf") ∧
    preprocess_user_input rmNull "try https://github.com/a/b" ({} : CopilotContext)
      = ⟨({} : CopilotContext), none⟩ :=
  ⟨rfl, rfl, rfl,
   claim_c10_build_failure_keeps_context rmNull "try https://github.com/a/b"
     ({} : CopilotContext) "https://github.com/a/b" (GError.notFound "nf") rfl rfl rfl⟩

/-! ### Claim C7: status classification -/

theorem isPrefList_refl : ∀ l : List Char, isPrefList l l = true := by
  intro l
  induction l with
  | nil => rfl
  | cons c t ih => simp [isPrefList, ih]

theorem containsSub_suffix : ∀ (pre s : List Char), containsSub (pre ++ s) s = true := by
  intro pre
  induction pre with
  | nil =>
    intro s
    cases s with
    | nil => rfl
    | cons c t => simp [containsSub, isPrefList_refl]
  | cons c t ih =>
    intro s
    simp [containsSub, ih s]

/-- CLAIM C7 (amended): `_request` classifies every non-2xx status into
exactly one of the three raise sites — 404 to NotFound, 403 to RateLimited,
anything else to RemoteError; the NotFound message retains the URL and the
RemoteError message retains the status, but the RateLimited message is a
fixed sentence retaining neither; the raw-content fetch `_fetch_raw` has no
403 branch and classifies any non-404 failure (403 included) as its
generic error; and a metadata fetch failing RateLimited makes `build` fail
RateLimited. -/
theorem claim_c7_status_classification :
    (∀ (url : String) (status : Nat), ¬ (200 ≤ status ∧ status < 300) →
      classify_status url status = some
        (if status = 404 then GError.notFound ("Not found: " ++ url)
         else if status = 403 then GError.rateLimited rateLimitMsg
         else GError.remoteError ("GitHub API error: " ++ toString status))) ∧
    (∀ url : String, containsSub ("Not found: " ++ url).data url.data = true) ∧
    (∀ status : Nat,
      containsSub ("GitHub API error: " ++ toString status).data (toString status).data = true) ∧
    (∀ (url : String) (status : Nat), ¬ (200 ≤ status ∧ status < 300) →
      classify_raw_status url status = some
        (if status = 404 then GError.notFound ("File not found: " ++ url)
         else GError.remoteError ("Failed to fetch file: " ++ toString status))) ∧
    (∀ (rm : Remote) (url : String) (parsed : ParsedGitHubURL),
      GitHubURLParser.parse url = some parsed →
      rm.getRepo parsed.owner parsed.repo = .error (GError.rateLimited rateLimitMsg) →
      build_repo_context rm url = .error (GError.rateLimited rateLimitMsg)) := by
  refine ⟨?_, ?_, ?_, ?_, ?_⟩
  · intro url status h
    unfold classify_status
    by_cases h4 : status = 404
    · simp [h4]
    · by_cases h3 : status = 403
      · simp [h4, h3]
      · have h200 : status ≠ 200 := by omega
        simp [h4, h3, h200]
  · intro url
    rw [String.data_append]
    exact containsSub_suffix _ _
  · intro status
    rw [String.data_append]
    exact containsSub_suffix _ _
  · intro url status h
    unfold classify_raw_status
    by_cases h4 : status = 404
    · simp [h4]
    · have h200 : status ≠ 200 := by omega
      simp [h4, h200]
  · intro rm url parsed hp hrepo
    simp [build_repo_context, hp, RepoAnalyzer.analyze, hrepo]

/-- CLAIM C7 (counterexample): the 403 branch raises a fixed message that
retains neither the status nor the URL, so "the specific status and URL
retained in the error for diagnostics" fails for RateLimited errors. -/
theorem claim_c7_counterexample :
    classify_status "https://api.github.com/repos/acme/widgets" 403
      = some (GError.rateLimited rateLimitMsg) ∧
    containsSub rateLimitMsg.data "403".data = false ∧
    containsSub rateLimitMsg.data "https://api.github.com/repos/acme/widgets".data = false :=
  ⟨rfl, by decide, by decide⟩

/-- CLAIM C7 (witness): status 500 classifies as RemoteError, and a
rate-limited metadata fetch makes the build of a bare repo URL fail
RateLimited. -/
theorem claim_c7_witness :
    (¬ (200 ≤ 500 ∧ 500 < 300) ∧
      classify_status "u" 500 = some
        (if 500 = 404 then GError.notFound ("Not found: " ++ "u")
         else if 500 = 403 then GError.rateLimited rateLimitMsg
         else GError.remoteError ("GitHub API error: " ++ toString 500))) ∧
    build_repo_context rm403 "https://github.com/acme/widgets"
      = .error (GError.rateLimited rateLimitMsg) :=
  ⟨⟨by decide, claim_c7_status_classification.1 "u" 500 (by decide)⟩,
   claim_c7_status_classification.2.2.2.2 rm403 "https://github.com/acme/widgets"
     { owner := "acme", repo := "widgets", branch := "main", path := "",
       is_repo_root := true, original_url := "https://github.com/acme/widgets" }
     rfl rfl⟩

/-! ### Claim C5: cache guard -/

/-- CLAIM C5 (code bug evidence): on a loaded snapshot and a message URL of
the same repository naming a file that is not the current focus, the guard
does NOT perform the clean focus update the claim describes: line 61
mutates only the snapshot's `fetched_file_path`, and then line 63's
assignment to the undeclared `github_file_content` field raises
`ValueError`, so the exception escapes with `current_file` and every other
field untouched. -/
theorem claim_c5_guard_crash :
    ∀ (rm : Remote) (text : String) (ctx : CopilotContext) (url : String)
        (rc : RepoContext) (pn : ParsedGitHubURL),
      extract_github_url text = some url →
      ctx.repo_context = some rc →
      same_repo_loaded ctx url = true →
      GitHubURLParser.parse url = some pn →
      pn.is_file = true →
      ¬ rc.fetched_file_path = some pn.path →
      preprocess_user_input rm text ctx =
        ⟨{ ctx with repo_context := some { rc with fetched_file_path := some pn.path } },
         some githubFileContentFieldError⟩ := by
  intro rm text ctx url rc pn hex hrc hsame hpn hfile hne
  have hbeq : (rc.fetched_file_path == some pn.path) = false := by
    simpa using hne
  simp [preprocess_user_input, hex, hsame, hrc, hpn, hfile, hbeq]

/-- CLAIM C5 (witness): with `ctxDemo` loaded for `acme/widgets` (focused
on `app.py`) and a message naming `other.py` of the same repository, the
call ends with the `ValueError` escaping; only the focus marker was
mutated, and `current_file` still names `app.py`. -/
theorem claim_c5_witness :
    extract_github_url textSameRepo
      = some "https://github.com/acme/widgets/blob/main/other.py" ∧
    same_repo_loaded ctxDemo "https://github.com/acme/widgets/blob/main/other.py" = true ∧
    preprocess_user_input rmNull textSameRepo ctxDemo =
      ⟨{ ctxDemo with repo_context := some { rcDemo with fetched_file_path := some "other.py" } },
       some githubFileContentFieldError⟩ ∧
    (preprocess_user_input rmNull textSameRepo ctxDemo).ctx.current_file = some "app.py" :=
  ⟨rfl, rfl,
   claim_c5_guard_crash rmNull textSameRepo ctxDemo
     "https://github.com/acme/widgets/blob/main/other.py" rcDemo
     { owner := "acme", repo := "widgets", branch := "main", path := "other.py",
       is_file := true,
       original_url := "https://github.com/acme/widgets/blob/main/other.py",
       raw_url := "https://raw.githubusercontent.com/acme/widgets/main/other.py" }
     rfl rfl rfl rfl rfl (by decide),
   rfl⟩

/-! ### Claim C6: entry-point detection -/

theorem foldl_record_entry (files : List GitHubFile) :
    ∀ (entries : List String) (acc : List String),
      entries.foldl (record_entry files) acc
        = acc ++ canonicalEntryPaths files entries := by
  intro entries
  induction entries with
  | nil => intro acc; simp [canonicalEntryPaths]
  | cons e es ih =>
    intro acc
    simp only [List.foldl_cons, canonicalEntryPaths, List.filterMap_cons]
    cases hg : lastPathForName files e with
    | none => simp [record_entry, hg, ih, canonicalEntryPaths]
    | some p => simp [record_entry, hg, ih, canonicalEntryPaths]

theorem find_entry_points_eq (files : List GitHubFile) (lang : String) :
    find_entry_points files lang =
      (appendCommonEntries files
        (canonicalEntryPaths files
          (entriesForLang (if lang ≠ "" then lowerStr lang else "")))).take 5 := by
  simp only [find_entry_points, entriesForLang, canonicalEntryPaths, appendCommonEntries]
  cases hfind : ENTRY_POINTS.find?
      (fun e => e.1 == (if lang ≠ "" then lowerStr lang else "")) with
  | none => simp [hfind]
  | some e =>
    simp [hfind]
    rw [foldl_record_entry files e.2 [], List.nil_append]
    simp [canonicalEntryPaths]

theorem lastPathForName_name {files : List GitHubFile} {e p : String}
    (h : lastPathForName files e = some p) : ∃ f ∈ files, f.name = e ∧ f.path = p := by
  unfold lastPathForName at h
  cases hl : (files.filter (fun f => f.name == e)).getLast? with
  | none => rw [hl] at h; simp at h
  | some f =>
    rw [hl] at h
    simp only [Option.map_some'] at h
    obtain ⟨hnil, hx⟩ := List.mem_getLast?_eq_getLast (Option.mem_def.mpr hl)
    have hf : f ∈ files.filter (fun g => g.name == e) := by
      rw [hx]
      exact List.getLast_mem hnil
    rcases List.mem_filter.mp hf with ⟨hmem, hnm⟩
    exact ⟨f, hmem, by simpa using hnm, Option.some.inj h⟩

theorem canonicalEntryPaths_nodup (files : List GitHubFile) (entries : List String)
    (hn : ∀ f ∈ files, f.name = baseName f.path) (he : entries.Nodup) :
    (canonicalEntryPaths files entries).Nodup := by
  unfold canonicalEntryPaths
  refine List.Nodup.filterMap ?_ he
  intro e1 e2 p hp1 hp2
  obtain ⟨f1, hf1, hn1, hp1'⟩ := lastPathForName_name (Option.mem_def.mp hp1)
  obtain ⟨f2, hf2, hn2, hp2'⟩ := lastPathForName_name (Option.mem_def.mp hp2)
  rw [← hn1, hn f1 hf1, hp1', ← hp2', ← hn f2 hf2, hn2]

theorem appendCommonEntries_nodup (files : List GitHubFile) :
    ∀ base : List String, base.Nodup → (appendCommonEntries files base).Nodup := by
  unfold appendCommonEntries
  induction files with
  | nil => intro base h; exact h
  | cons f fs ih =>
    intro base h
    simp only [List.foldl_cons]
    by_cases hc : (commonEntryNames.contains f.name && !(base.contains f.path)) = true
    · rw [if_pos hc]
      have hnp : f.path ∉ base := by
        have h2 := hc
        rw [Bool.and_eq_true] at h2
        simpa using h2.2
      exact ih (base ++ [f.path]) (by simp [List.nodup_append, h, hnp])
    · rw [if_neg hc]
      exact ih base h

theorem entriesForLang_nodup (key : String) : (entriesForLang key).Nodup := by
  unfold entriesForLang
  cases hfind : ENTRY_POINTS.find? (fun e => e.1 == key) with
  | none => simp
  | some e =>
    simp only [hfind]
    have hmem : e ∈ ENTRY_POINTS := List.mem_of_find?_eq_some hfind
    simp only [ENTRY_POINTS, List.mem_cons, List.mem_singleton] at hmem
    rcases hmem with h | h | h
    · rw [h]; decide
    · rw [h]; decide
    · rcases h with h | h
      · rw [h]; decide
      · simp at h

/-- CLAIM C6 (amended): entry-point detection first records, for each
canonical entry-point filename of the primary language that is present,
the path of the LAST file of the listing carrying that name (the
name-to-path dict is built with later files overwriting earlier ones —
not the first matching path); it then scans the listing for the
cross-language entry names, appending paths not already recorded; the
result preserves that discovery order, has length at most 5, and — for
listings whose name field is the path's final segment, as the tree fetch
produces them — contains no duplicates. -/
theorem claim_c6_entry_points (files : List GitHubFile) (lang : String)
    (hn : ∀ f ∈ files, f.name = baseName f.path) :
    find_entry_points files lang =
      (appendCommonEntries files
        (canonicalEntryPaths files
          (entriesForLang (if lang ≠ "" then lowerStr lang else "")))).take 5 ∧
    (find_entry_points files lang).length ≤ 5 ∧
    (find_entry_points files lang).Nodup := by
  have heq := find_entry_points_eq files lang
  refine ⟨heq, ?_, ?_⟩
  · rw [heq]
    exact List.length_take_le ..
  · rw [heq]
    refine List.Nodup.sublist (List.take_sublist ..) ?_
    exact appendCommonEntries_nodup files _
      (canonicalEntryPaths_nodup files _ hn (entriesForLang_nodup _))

/-- CLAIM C6 (counterexample): with both `src/main.py` and `lib/main.py`
in the listing, the first phase records the LAST matching path
`lib/main.py`, not the first matching path `src/main.py` the claim
requires. -/
theorem claim_c6_counterexample :
    find_entry_points filesC6x "Python" = ["lib/main.py", "src/main.py"] ∧
    ¬ ((find_entry_points filesC6x "Python").head? = some "src/main.py") :=
  ⟨rfl, by decide⟩

/-- CLAIM C6 (witness): a listing with consistent name fields, evaluated
through the amended characterization. -/
theorem claim_c6_witness :
    (∀ f ∈ filesC6w, f.name = baseName f.path) ∧
    find_entry_points filesC6w "Python" = ["src/main.py", "tools/run.py"] ∧
    (find_entry_points filesC6w "Python").length ≤ 5 ∧
    (find_entry_points filesC6w "Python").Nodup :=
  ⟨by decide, rfl,
   (claim_c6_entry_points filesC6w "Python" (by decide)).2.1,
   (claim_c6_entry_points filesC6w "Python" (by decide)).2.2⟩

/-! ### Claim C8: URL parser lemmas -/

theorem notNl_of_nonspace {c : Char} (h : isSpaceChar c = false) : notNl c = true := by
  by_cases hc : c = '\n'
  · subst hc
    exact absurd h (by decide)
  · simp [notNl, hc]

theorem segOK_notSlash {s : String} (h : segOK s) : ∀ c ∈ s.data, notSlash c = true :=
  fun c hc => (h.2 c hc).1

theorem segOK_nonspace {s : String} (h : segOK s) : ∀ c ∈ s.data, isSpaceChar c = false :=
  fun c hc => (h.2 c hc).2

theorem pathOK_notNl {p : String} (h : pathOK p) : ∀ c ∈ p.data, notNl c = true :=
  fun c hc => notNl_of_nonspace (h.2 c hc)

theorem seg1_pos (l rest : List Char) (hl : ∀ c ∈ l, notSlash c = true) (hne : l ≠ [])
    (hrest : rest.takeWhile notSlash = []) : seg1 (l ++ rest) = some (l, rest) := by
  cases l with
  | nil => exact absurd rfl hne
  | cons c t =>
    simp only [seg1]
    rw [takeWhile_append_all _ rest hl, hrest, List.append_nil,
        dropWhile_append_all _ rest hl, dropWhile_not_head rest hrest]
    rfl

theorem seg1_all (l : List Char) (hl : ∀ c ∈ l, notSlash c = true) (hne : l ≠ []) :
    seg1 l = some (l, []) := by
  cases l with
  | nil => exact absurd rfl hne
  | cons c t =>
    simp only [seg1]
    rw [takeWhile_all _ hl, dropWhile_all _ hl]
    rfl

theorem dotPlus_pos (p : List Char) (hp : ∀ c ∈ p, notNl c = true) (hne : p ≠ []) :
    dotPlus p = some p := by
  cases p with
  | nil => exact absurd rfl hne
  | cons c t =>
    simp only [dotPlus]
    rw [takeWhile_all _ hp]
    rfl

theorem ownerRepoSeg_pos (o r rest : List Char)
    (ho : ∀ c ∈ o, notSlash c = true) (hone : o ≠ [])
    (hr : ∀ c ∈ r, notSlash c = true) (hrne : r ≠ [])
    (hrest : rest.takeWhile notSlash = []) :
    ownerRepoSeg (o ++ '/' :: (r ++ rest)) = some (o, r, rest) := by
  have h1 : seg1 (o ++ '/' :: (r ++ rest)) = some (o, '/' :: (r ++ rest)) :=
    seg1_pos o ('/' :: (r ++ rest)) ho hone rfl
  have h2 : seg1 (r ++ rest) = some (r, rest) := seg1_pos r rest hr hrne hrest
  simp [ownerRepoSeg, h1, h2, dropLit]

theorem branchPathSeg_pos (kw b p : List Char)
    (hb : ∀ c ∈ b, notSlash c = true) (hbne : b ≠ [])
    (hp : ∀ c ∈ p, notNl c = true) (hpne : p ≠ []) :
    branchPathSeg kw (kw ++ (b ++ '/' :: p)) = some (b, p) := by
  have h1 : seg1 (b ++ '/' :: p) = some (b, '/' :: p) := seg1_pos b ('/' :: p) hb hbne rfl
  simp [branchPathSeg, dropLit_self_append, h1, dropLit, dotPlus_pos p hp hpne]

theorem branchEndSeg_pos (b : List Char) (hb : ∀ c ∈ b, notSlash c = true) (hbne : b ≠ []) :
    branchEndSeg ("/tree/".data ++ b) = some b := by
  have h0 : dropLit "/tree/".data ("/tree/".data ++ b) = some b := dropLit_self_append _ _
  simp only [branchEndSeg, h0, seg1_all b hb hbne]
  simp [optSlashEnd]

theorem parse_gh_reduce (url : String) (body : List Char)
    (hd : url.data = "https://github.com/".data ++ body)
    (hbody : ∀ c ∈ body, isSpaceChar c = false) :
    GitHubURLParser.parse url = parseGhBody url body := by
  have hlit : ∀ c ∈ "https://github.com/".data, isSpaceChar c = false := by decide
  have hall : ∀ c ∈ "https://github.com/".data ++ body, isSpaceChar c = false := by
    intro c hc
    rcases List.mem_append.mp hc with h | h
    · exact hlit c h
    · exact hbody c h
  have hstrip : pyStrip ("https://github.com/".data ++ body)
      = "https://github.com/".data ++ body := pyStrip_all _ hall
  have hproto : stripProto ("https://github.com/".data ++ body) = ghHost ++ body := by
    have hassoc : "https://github.com/".data ++ body
        = "https://".data ++ (ghHost ++ body) := by
      rw [show "https://github.com/".data = "https://".data ++ ghHost from by decide,
          List.append_assoc]
    unfold stripProto
    rw [hassoc, dropLit_self_append]
  simp only [GitHubURLParser.parse, hd, hstrip, hproto, dropLit_self_append]
  rw [← hd]

theorem parse_raw_reduce (url : String) (body : List Char)
    (hd : url.data = "https://raw.githubusercontent.com/".data ++ body)
    (hbody : ∀ c ∈ body, isSpaceChar c = false) :
    GitHubURLParser.parse url = parseRawBody url body := by
  have hlit : ∀ c ∈ "https://raw.githubusercontent.com/".data, isSpaceChar c = false := by decide
  have hall : ∀ c ∈ "https://raw.githubusercontent.com/".data ++ body, isSpaceChar c = false := by
    intro c hc
    rcases List.mem_append.mp hc with h | h
    · exact hlit c h
    · exact hbody c h
  have hstrip : pyStrip ("https://raw.githubusercontent.com/".data ++ body)
      = "https://raw.githubusercontent.com/".data ++ body := pyStrip_all _ hall
  have hproto : stripProto ("https://raw.githubusercontent.com/".data ++ body)
      = rawHost ++ body := by
    have hassoc : "https://raw.githubusercontent.com/".data ++ body
        = "https://".data ++ (rawHost ++ body) := by
      rw [show "https://raw.githubusercontent.com/".data = "https://".data ++ rawHost from by decide,
          List.append_assoc]
    unfold stripProto
    rw [hassoc, dropLit_self_append]
  have hgh : dropLit ghHost (rawHost ++ body) = none := rfl
  simp only [GitHubURLParser.parse, hd, hstrip, hproto, hgh, dropLit_self_append]
  rw [← hd]

theorem parseGhBody_blob (u : String) (o r b p : List Char)
    (ho : ∀ c ∈ o, notSlash c = true) (hone : o ≠ [])
    (hr : ∀ c ∈ r, notSlash c = true) (hrne : r ≠ [])
    (hb : ∀ c ∈ b, notSlash c = true) (hbne : b ≠ [])
    (hp : ∀ c ∈ p, notNl c = true) (hpne : p ≠ []) :
    parseGhBody u (o ++ '/' :: (r ++ ("/blob/".data ++ (b ++ '/' :: p))))
      = some { owner := ⟨o⟩, repo := ⟨r⟩, branch := ⟨b⟩, path := ⟨p⟩,
               is_file := true, original_url := u,
               raw_url := ⟨"https://raw.githubusercontent.com/".data ++ o ++ '/' :: r ++ '/' :: b ++ '/' :: p⟩ } := by
  have hor := ownerRepoSeg_pos o r ("/blob/".data ++ (b ++ '/' :: p)) ho hone hr hrne rfl
  have hbp := branchPathSeg_pos "/blob/".data b p hb hbne hp hpne
  simp only [parseGhBody, hor, hbp]

theorem parseGhBody_tree (u : String) (o r b p : List Char)
    (ho : ∀ c ∈ o, notSlash c = true) (hone : o ≠ [])
    (hr : ∀ c ∈ r, notSlash c = true) (hrne : r ≠ [])
    (hb : ∀ c ∈ b, notSlash c = true) (hbne : b ≠ [])
    (hp : ∀ c ∈ p, notNl c = true) (hpne : p ≠ []) :
    parseGhBody u (o ++ '/' :: (r ++ ("/tree/".data ++ (b ++ '/' :: p))))
      = some { owner := ⟨o⟩, repo := ⟨r⟩, branch := ⟨b⟩, path := ⟨p⟩,
               is_directory := true, original_url := u } := by
  have hor := ownerRepoSeg_pos o r ("/tree/".data ++ (b ++ '/' :: p)) ho hone hr hrne rfl
  have hfb : branchPathSeg "/blob/".data ("/tree/".data ++ (b ++ '/' :: p)) = none := by
    have h0 : dropLit "/blob/".data ("/tree/".data ++ (b ++ '/' :: p)) = none := rfl
    simp only [branchPathSeg, h0]
  have htp := branchPathSeg_pos "/tree/".data b p hb hbne hp hpne
  simp only [parseGhBody, hor, hfb, htp]

theorem parseGhBody_tree_root (u : String) (o r b : List Char)
    (ho : ∀ c ∈ o, notSlash c = true) (hone : o ≠ [])
    (hr : ∀ c ∈ r, notSlash c = true) (hrne : r ≠ [])
    (hb : ∀ c ∈ b, notSlash c = true) (hbne : b ≠ []) :
    parseGhBody u (o ++ '/' :: (r ++ ("/tree/".data ++ b)))
      = some { owner := ⟨o⟩, repo := ⟨r⟩, branch := ⟨b⟩, path := "",
               is_repo_root := true, original_url := u } := by
  have hor := ownerRepoSeg_pos o r ("/tree/".data ++ b) ho hone hr hrne rfl
  have hfb : branchPathSeg "/blob/".data ("/tree/".data ++ b) = none := by
    have h0 : dropLit "/blob/".data ("/tree/".data ++ b) = none := rfl
    simp only [branchPathSeg, h0]
  have hslash : dropLit ['/'] ([] : List Char) = none := rfl
  have hft : branchPathSeg "/tree/".data ("/tree/".data ++ b) = none := by
    simp only [branchPathSeg, dropLit_self_append, seg1_all b hb hbne, hslash]
  have hend := branchEndSeg_pos b hb hbne
  simp only [parseGhBody, hor, hfb, hft, hend]

theorem parseGhBody_bare (u : String) (o r : List Char)
    (ho : ∀ c ∈ o, notSlash c = true) (hone : o ≠ [])
    (hr : ∀ c ∈ r, notSlash c = true) (hrne : r ≠ []) :
    parseGhBody u (o ++ '/' :: (r ++ []))
      = some { owner := ⟨o⟩, repo := ⟨r⟩, branch := "main", path := "",
               is_repo_root := true, original_url := u } := by
  have hor := ownerRepoSeg_pos o r [] ho hone hr hrne rfl
  have hfb : branchPathSeg "/blob/".data ([] : List Char) = none := by
    have h0 : dropLit "/blob/".data ([] : List Char) = none := rfl
    simp only [branchPathSeg, h0]
  have hft : branchPathSeg "/tree/".data ([] : List Char) = none := by
    have h0 : dropLit "/tree/".data ([] : List Char) = none := rfl
    simp only [branchPathSeg, h0]
  have hfe : branchEndSeg ([] : List Char) = none := by
    have h0 : dropLit "/tree/".data ([] : List Char) = none := rfl
    simp only [branchEndSeg, h0]
  simp only [parseGhBody, hor, hfb, hft, hfe]
  rfl

theorem parseRawBody_pos (u : String) (o r b p : List Char)
    (ho : ∀ c ∈ o, notSlash c = true) (hone : o ≠ [])
    (hr : ∀ c ∈ r, notSlash c = true) (hrne : r ≠ [])
    (hb : ∀ c ∈ b, notSlash c = true) (hbne : b ≠ [])
    (hp : ∀ c ∈ p, notNl c = true) (hpne : p ≠ []) :
    parseRawBody u (o ++ '/' :: (r ++ ('/' :: (b ++ '/' :: p))))
      = some { owner := ⟨o⟩, repo := ⟨r⟩, branch := ⟨b⟩, path := ⟨p⟩,
               is_file := true, original_url := u, raw_url := u } := by
  have hor := ownerRepoSeg_pos o r ('/' :: (b ++ '/' :: p)) ho hone hr hrne rfl
  have h1 : dropLit ['/'] ('/' :: (b ++ '/' :: p)) = some (b ++ '/' :: p) := by
    simp [dropLit]
  have h2 : seg1 (b ++ '/' :: p) = some (b, '/' :: p) := seg1_pos b ('/' :: p) hb hbne rfl
  have h3 : dropLit ['/'] ('/' :: p) = some p := by simp [dropLit]
  simp only [parseRawBody, hor, h1, h2, h3, dotPlus_pos p hp hpne]

theorem dropLit_some : ∀ {lit cs rest : List Char}, dropLit lit cs = some rest →
    cs = lit ++ rest := by
  intro lit
  induction lit with
  | nil =>
    intro cs rest h
    exact Option.some.inj h
  | cons l ls ih =>
    intro cs rest h
    cases cs with
    | nil => exact absurd h (by simp [dropLit])
    | cons c cs' =>
      unfold dropLit at h
      split at h
      · rename_i hc
        rw [List.cons_append, hc, ih h]
      · exact absurd h (by simp)

theorem seg1_some {cs s rest : List Char} (h : seg1 cs = some (s, rest)) :
    cs = s ++ rest ∧ segChars s := by
  simp only [seg1] at h
  split at h
  · exact absurd h (by simp)
  · rename_i hne
    have hpair := Option.some.inj h
    have h1 : cs.takeWhile notSlash = s := congrArg Prod.fst hpair
    have h2 : cs.dropWhile notSlash = rest := congrArg Prod.snd hpair
    refine ⟨?_, ?_, ?_⟩
    · rw [← h1, ← h2, List.takeWhile_append_dropWhile]
    · intro heq
      exact hne (List.isEmpty_iff.mpr (by rw [h1, heq]))
    · intro c hc
      rw [← h1] at hc
      exact List.mem_takeWhile_imp hc

theorem dotPlus_some {cs p : List Char} (h : dotPlus cs = some p) : headNotNl cs := by
  simp only [dotPlus] at h
  split at h
  · exact absurd h (by simp)
  · rename_i hne
    cases cs with
    | nil => exact absurd rfl hne
    | cons c t =>
      by_cases hc : notNl c = true
      · exact ⟨c, t, rfl, hc⟩
      · refine absurd ?_ hne
        have hcf : notNl c = false := by simpa using hc
        simp [List.takeWhile_cons, hcf]

theorem ownerRepoSeg_some {cs o r rest : List Char}
    (h : ownerRepoSeg cs = some (o, r, rest)) :
    cs = o ++ '/' :: (r ++ rest) ∧ segChars o ∧ segChars r := by
  unfold ownerRepoSeg at h
  split at h
  · exact absurd h (by simp)
  · rename_i o1 r1 h1
    split at h
    · exact absurd h (by simp)
    · rename_i r2 h2
      split at h
      · exact absurd h (by simp)
      · rename_i r3 r4 h3
        have htriple := Option.some.inj h
        have ho1 : o1 = o := congrArg (·.1) htriple
        have hr3 : r3 = r := congrArg (·.2.1) htriple
        have hr4 : r4 = rest := congrArg (·.2.2) htriple
        subst ho1; subst hr3; subst hr4
        obtain ⟨hcs1, hs1⟩ := seg1_some h1
        obtain ⟨hcs3, hs3⟩ := seg1_some h3
        have hr1 : r1 = '/' :: r2 := dropLit_some h2
        refine ⟨?_, hs1, hs3⟩
        rw [hcs1, hr1, hcs3]

theorem branchPathSeg_some {kw cs b p : List Char}
    (h : branchPathSeg kw cs = some (b, p)) :
    ∃ tail, cs = kw ++ (b ++ '/' :: tail) ∧ segChars b ∧ headNotNl tail := by
  unfold branchPathSeg at h
  split at h
  · exact absurd h (by simp)
  · rename_i r4 h1
    split at h
    · exact absurd h (by simp)
    · rename_i b1 r5 h2
      split at h
      · exact absurd h (by simp)
      · rename_i r6 h3
        split at h
        · exact absurd h (by simp)
        · rename_i p1 h4
          have hpair := Option.some.inj h
          have hb1 : b1 = b := congrArg Prod.fst hpair
          subst hb1
          obtain ⟨hcs2, hs2⟩ := seg1_some h2
          have hr5 : r5 = '/' :: r6 := dropLit_some h3
          refine ⟨r6, ?_, hs2, dotPlus_some h4⟩
          rw [dropLit_some h1, hcs2, hr5]

theorem branchEndSeg_some {cs b : List Char} (h : branchEndSeg cs = some b) :
    ∃ tail, cs = "/tree/".data ++ (b ++ tail) ∧ segChars b ∧ optSlashEnd tail = true := by
  unfold branchEndSeg at h
  split at h
  · exact absurd h (by simp)
  · rename_i r4 h1
    split at h
    · exact absurd h (by simp)
    · rename_i b1 r5 h2
      split at h
      · rename_i hopt
        have hb1 : b1 = b := Option.some.inj h
        subst hb1
        obtain ⟨hcs2, hs2⟩ := seg1_some h2
        exact ⟨r5, by rw [dropLit_some h1, hcs2], hs2, hopt⟩
      · exact absurd h (by simp)

theorem parse_some_shape {s : String} {ref : ParsedGitHubURL}
    (h : GitHubURLParser.parse s = some ref) : matchesShape s := by
  simp only [GitHubURLParser.parse] at h
  simp only [matchesShape]
  split at h
  · rename_i rest heq
    have hclean := dropLit_some heq
    simp only [parseGhBody] at h
    split at h
    · exact absurd h (by simp)
    · rename_i o r rest2 hor
      obtain ⟨hcs, ho, hr⟩ := ownerRepoSeg_some hor
      split at h
      · rename_i b p hbp
        obtain ⟨tail, hcs2, hb, htl⟩ := branchPathSeg_some hbp
        exact Or.inl ⟨o, r, b, tail, by rw [hclean, hcs, hcs2], ho, hr, hb, htl⟩
      · split at h
        · rename_i b p hbp
          obtain ⟨tail, hcs2, hb, htl⟩ := branchPathSeg_some hbp
          exact Or.inr (Or.inl ⟨o, r, b, tail, by rw [hclean, hcs, hcs2], ho, hr, hb, htl⟩)
        · split at h
          · rename_i b hbe
            obtain ⟨tail, hcs2, hb, htl⟩ := branchEndSeg_some hbe
            exact Or.inr (Or.inr (Or.inl
              ⟨o, r, b, tail, by rw [hclean, hcs, hcs2], ho, hr, hb, htl⟩))
          · split at h
            · rename_i hopt
              exact Or.inr (Or.inr (Or.inr (Or.inl
                ⟨o, r, rest2, by rw [hclean, hcs], ho, hr, hopt⟩)))
            · exact absurd h (by simp)
  · split at h
    · rename_i rest heq
      have hclean := dropLit_some heq
      simp only [parseRawBody] at h
      split at h
      · exact absurd h (by simp)
      · rename_i o r rest2 hor
        obtain ⟨hcs, ho, hr⟩ := ownerRepoSeg_some hor
        split at h
        · exact absurd h (by simp)
        · rename_i r2 h2
          split at h
          · exact absurd h (by simp)
          · rename_i b r3 h3
            split at h
            · exact absurd h (by simp)
            · rename_i r4 h4
              split at h
              · exact absurd h (by simp)
              · rename_i p h5
                obtain ⟨hcs3, hs3⟩ := seg1_some h3
                have hr2 : rest2 = '/' :: r2 := dropLit_some h2
                have hr4 : r3 = '/' :: r4 := dropLit_some h4
                refine Or.inr (Or.inr (Or.inr (Or.inr
                  ⟨o, r, b, r4, ?_, ho, hr, hs3, dotPlus_some h5⟩)))
                rw [hclean, hcs, hr2, hcs3, hr4]
    · exact absurd h (by simp)

theorem dotPlus_head (c : Char) (t : List Char) (hc : notNl c = true) :
    dotPlus (c :: t) = some (c :: t.takeWhile notNl) := by
  simp [dotPlus, List.takeWhile_cons, hc]

theorem branchPathSeg_pos' (kw b tail : List Char)
    (hb : ∀ x ∈ b, notSlash x = true) (hbne : b ≠ []) (htl : headNotNl tail) :
    ∃ p, branchPathSeg kw (kw ++ (b ++ '/' :: tail)) = some (b, p) := by
  obtain ⟨c, t, rfl, hc⟩ := htl
  have h1 : seg1 (b ++ '/' :: (c :: t)) = some (b, '/' :: (c :: t)) :=
    seg1_pos b _ hb hbne rfl
  refine ⟨c :: t.takeWhile notNl, ?_⟩
  simp [branchPathSeg, dropLit_self_append, h1, dropLit, dotPlus_head c t hc]

theorem branchPathSeg_blob_tree_fail (X : List Char) :
    branchPathSeg "/blob/".data ("/tree/".data ++ X) = none := by
  have h0 : dropLit "/blob/".data ("/tree/".data ++ X) = none := rfl
  simp only [branchPathSeg, h0]

theorem optSlashEnd_cases {tail : List Char} (ht : optSlashEnd tail = true) :
    tail = [] ∨ tail = ['/'] ∨ tail = ['/', '\x0a'] := by
  have h : (tail = [] ∨ tail = ['/']) ∨ tail = ['/', '\x0a'] := by
    simpa [optSlashEnd] using ht
  tauto

theorem branchPathSeg_tree_end_fail (b tail : List Char)
    (hb : ∀ x ∈ b, notSlash x = true) (hbne : b ≠ []) (ht : optSlashEnd tail = true) :
    branchPathSeg "/tree/".data ("/tree/".data ++ (b ++ tail)) = none := by
  rcases optSlashEnd_cases ht with rfl | rfl | rfl
  · rw [List.append_nil]
    have h1 : seg1 b = some (b, []) := seg1_all b hb hbne
    have h2 : dropLit ['/'] ([] : List Char) = none := rfl
    simp only [branchPathSeg, dropLit_self_append, h1, h2]
  · have h1 : seg1 (b ++ ['/']) = some (b, ['/']) := seg1_pos b ['/'] hb hbne rfl
    have h2 : dropLit ['/'] (['/'] : List Char) = some [] := by decide
    have h3 : dotPlus ([] : List Char) = none := by decide
    simp only [branchPathSeg, dropLit_self_append, h1, h2, h3]
  · have h1 : seg1 (b ++ ['/', '\x0a']) = some (b, ['/', '\x0a']) :=
      seg1_pos b ['/', '\x0a'] hb hbne (by decide)
    have h2 : dropLit ['/'] (['/', '\x0a'] : List Char) = some ['\x0a'] := by decide
    have h3 : dotPlus (['\x0a'] : List Char) = none := by decide
    simp only [branchPathSeg, dropLit_self_append, h1, h2, h3]

theorem branchEndSeg_pos' (b tail : List Char)
    (hb : ∀ x ∈ b, notSlash x = true) (hbne : b ≠ []) (ht : optSlashEnd tail = true) :
    branchEndSeg ("/tree/".data ++ (b ++ tail)) = some b := by
  rcases optSlashEnd_cases ht with rfl | rfl | rfl
  · rw [List.append_nil]
    exact branchEndSeg_pos b hb hbne
  · have h0 : dropLit "/tree/".data ("/tree/".data ++ (b ++ ['/'])) = some (b ++ ['/']) :=
      dropLit_self_append _ _
    have h1 : seg1 (b ++ ['/']) = some (b, ['/']) := seg1_pos b ['/'] hb hbne rfl
    simp only [branchEndSeg, h0, h1]
    simp [optSlashEnd]
  · have h0 : dropLit "/tree/".data ("/tree/".data ++ (b ++ ['/', '\x0a']))
        = some (b ++ ['/', '\x0a']) := dropLit_self_append _ _
    have h1 : seg1 (b ++ ['/', '\x0a']) = some (b, ['/', '\x0a']) :=
      seg1_pos b ['/', '\x0a'] hb hbne (by decide)
    simp only [branchEndSeg, h0, h1]
    simp [optSlashEnd]

theorem shape_parse_isSome {s : String} (h : matchesShape s) :
    (GitHubURLParser.parse s).isSome = true := by
  simp only [matchesShape] at h
  simp only [GitHubURLParser.parse]
  rcases h with ⟨o, r, b, tail, hcl, ho, hr, hb, htl⟩ |
    ⟨o, r, b, tail, hcl, ho, hr, hb, htl⟩ |
    ⟨o, r, b, tail, hcl, ho, hr, hb, htl⟩ |
    ⟨o, r, tail, hcl, ho, hr, hopt⟩ |
    ⟨o, r, b, tail, hcl, ho, hr, hb, htl⟩
  · rw [hcl, dropLit_self_append]
    have hor := ownerRepoSeg_pos o r ("/blob/".data ++ (b ++ '/' :: tail)) ho.2 ho.1 hr.2 hr.1 rfl
    obtain ⟨p, hbp⟩ := branchPathSeg_pos' "/blob/".data b tail hb.2 hb.1 htl
    simp only [parseGhBody, hor, hbp, Option.isSome_some]
  · rw [hcl, dropLit_self_append]
    have hor := ownerRepoSeg_pos o r ("/tree/".data ++ (b ++ '/' :: tail)) ho.2 ho.1 hr.2 hr.1 rfl
    have hfb := branchPathSeg_blob_tree_fail (b ++ '/' :: tail)
    obtain ⟨p, hbp⟩ := branchPathSeg_pos' "/tree/".data b tail hb.2 hb.1 htl
    simp only [parseGhBody, hor, hfb, hbp, Option.isSome_some]
  · rw [hcl, dropLit_self_append]
    have hor := ownerRepoSeg_pos o r ("/tree/".data ++ (b ++ tail)) ho.2 ho.1 hr.2 hr.1 rfl
    have hfb := branchPathSeg_blob_tree_fail (b ++ tail)
    have hft := branchPathSeg_tree_end_fail b tail hb.2 hb.1 htl
    have hend := branchEndSeg_pos' b tail hb.2 hb.1 htl
    simp only [parseGhBody, hor, hfb, hft, hend, Option.isSome_some]
  · rw [hcl, dropLit_self_append]
    have hrest : tail.takeWhile notSlash = [] := by
      rcases optSlashEnd_cases hopt with rfl | rfl | rfl <;> rfl
    have hor := ownerRepoSeg_pos o r tail ho.2 ho.1 hr.2 hr.1 hrest
    have hfb : branchPathSeg "/blob/".data tail = none := by
      rcases optSlashEnd_cases hopt with rfl | rfl | rfl <;> rfl
    have hft : branchPathSeg "/tree/".data tail = none := by
      rcases optSlashEnd_cases hopt with rfl | rfl | rfl <;> rfl
    have hfe : branchEndSeg tail = none := by
      rcases optSlashEnd_cases hopt with rfl | rfl | rfl <;> rfl
    simp only [parseGhBody, hor, hfb, hft, hfe]
    simp [hopt]
  · have hgh : dropLit ghHost (rawHost ++ (o ++ '/' :: (r ++ ('/' :: (b ++ '/' :: tail)))))
        = none := rfl
    rw [hcl, hgh, dropLit_self_append]
    obtain ⟨c, t, rfl, hc⟩ := htl
    have hor := ownerRepoSeg_pos o r ('/' :: (b ++ '/' :: (c :: t))) ho.2 ho.1 hr.2 hr.1 rfl
    have h1 : dropLit ['/'] ('/' :: (b ++ '/' :: (c :: t))) = some (b ++ '/' :: (c :: t)) := by
      simp [dropLit]
    have h2 : seg1 (b ++ '/' :: (c :: t)) = some (b, '/' :: (c :: t)) :=
      seg1_pos b _ hb.2 hb.1 rfl
    have h3 : dropLit ['/'] ('/' :: (c :: t)) = some (c :: t) := by simp [dropLit]
    simp only [parseRawBody, hor, h1, h2, h3, dotPlus_head c t hc, Option.isSome_some]

/-- CLAIM C8: for each of the five recognized URL shapes, `parse` returns
exactly the owner, repo, branch, and path embedded in the URL string with
the kind flags of the shape (for a bare owner/repo URL the branch is the
literal `"main"`); the spec's unrelated-host example returns `none`; and
`parse` returns `none` exactly on the strings matching none of the five
recognized shapes: `matchesShape` states, shape by shape, what the five
regular expressions of `GITHUB_PATTERNS` accept, and `parse s = none` holds
if and only if `s` fails all five. -/
theorem claim_c8_parse_shapes :
    (∀ o r b p : String, segOK o → segOK r → segOK b → pathOK p →
      (GitHubURLParser.parse
          ("https://github.com/" ++ o ++ "/" ++ r ++ "/blob/" ++ b ++ "/" ++ p)).map refParts
        = some (o, r, b, p, true, false, false)) ∧
    (∀ o r b p : String, segOK o → segOK r → segOK b → pathOK p →
      (GitHubURLParser.parse
          ("https://github.com/" ++ o ++ "/" ++ r ++ "/tree/" ++ b ++ "/" ++ p)).map refParts
        = some (o, r, b, p, false, true, false)) ∧
    (∀ o r b : String, segOK o → segOK r → segOK b →
      (GitHubURLParser.parse
          ("https://github.com/" ++ o ++ "/" ++ r ++ "/tree/" ++ b)).map refParts
        = some (o, r, b, "", false, false, true)) ∧
    (∀ o r : String, segOK o → segOK r →
      (GitHubURLParser.parse ("https://github.com/" ++ o ++ "/" ++ r)).map refParts
        = some (o, r, "main", "", false, false, true)) ∧
    (∀ o r b p : String, segOK o → segOK r → segOK b → pathOK p →
      (GitHubURLParser.parse
          ("https://raw.githubusercontent.com/" ++ o ++ "/" ++ r ++ "/" ++ b ++ "/" ++ p)).map refParts
        = some (o, r, b, p, true, false, false)) ∧
    GitHubURLParser.parse "https://example.com/owner/repo" = none ∧
    (∀ s : String, GitHubURLParser.parse s = none ↔ ¬ matchesShape s) := by
  have hslashdata : ("/" : String).data = ['/'] := rfl
  have hlitblob : ∀ c ∈ "/blob/".data, isSpaceChar c = false := by decide
  have hlittree : ∀ c ∈ "/tree/".data, isSpaceChar c = false := by decide
  refine ⟨?_, ?_, ?_, ?_, ?_, ?_, ?_⟩
  · intro o r b p ho hr hb hp
    have hd : ("https://github.com/" ++ o ++ "/" ++ r ++ "/blob/" ++ b ++ "/" ++ p).data
        = "https://github.com/".data
          ++ (o.data ++ '/' :: (r.data ++ ("/blob/".data ++ (b.data ++ '/' :: p.data)))) := by
      simp only [String.data_append, hslashdata, List.singleton_append, List.cons_append, List.nil_append, List.append_assoc]
    have hbody : ∀ c ∈ o.data ++ '/' :: (r.data ++ ("/blob/".data ++ (b.data ++ '/' :: p.data))),
        isSpaceChar c = false := by
      refine List.forall_mem_append.mpr ⟨segOK_nonspace ho, ?_⟩
      refine List.forall_mem_cons.mpr ⟨by decide, ?_⟩
      refine List.forall_mem_append.mpr ⟨segOK_nonspace hr, ?_⟩
      refine List.forall_mem_append.mpr ⟨hlitblob, ?_⟩
      refine List.forall_mem_append.mpr ⟨segOK_nonspace hb, ?_⟩
      exact List.forall_mem_cons.mpr ⟨by decide, hp.2⟩
    rw [parse_gh_reduce _ _ hd hbody,
        parseGhBody_blob _ o.data r.data b.data p.data (segOK_notSlash ho) ho.1
          (segOK_notSlash hr) hr.1 (segOK_notSlash hb) hb.1 (pathOK_notNl hp) hp.1]
    rfl
  · intro o r b p ho hr hb hp
    have hd : ("https://github.com/" ++ o ++ "/" ++ r ++ "/tree/" ++ b ++ "/" ++ p).data
        = "https://github.com/".data
          ++ (o.data ++ '/' :: (r.data ++ ("/tree/".data ++ (b.data ++ '/' :: p.data)))) := by
      simp only [String.data_append, hslashdata, List.singleton_append, List.cons_append, List.nil_append, List.append_assoc]
    have hbody : ∀ c ∈ o.data ++ '/' :: (r.data ++ ("/tree/".data ++ (b.data ++ '/' :: p.data))),
        isSpaceChar c = false := by
      refine List.forall_mem_append.mpr ⟨segOK_nonspace ho, ?_⟩
      refine List.forall_mem_cons.mpr ⟨by decide, ?_⟩
      refine List.forall_mem_append.mpr ⟨segOK_nonspace hr, ?_⟩
      refine List.forall_mem_append.mpr ⟨hlittree, ?_⟩
      refine List.forall_mem_append.mpr ⟨segOK_nonspace hb, ?_⟩
      exact List.forall_mem_cons.mpr ⟨by decide, hp.2⟩
    rw [parse_gh_reduce _ _ hd hbody,
        parseGhBody_tree _ o.data r.data b.data p.data (segOK_notSlash ho) ho.1
          (segOK_notSlash hr) hr.1 (segOK_notSlash hb) hb.1 (pathOK_notNl hp) hp.1]
    rfl
  · intro o r b ho hr hb
    have hd : ("https://github.com/" ++ o ++ "/" ++ r ++ "/tree/" ++ b).data
        = "https://github.com/".data
          ++ (o.data ++ '/' :: (r.data ++ ("/tree/".data ++ b.data))) := by
      simp only [String.data_append, hslashdata, List.singleton_append, List.cons_append, List.nil_append, List.append_assoc]
    have hbody : ∀ c ∈ o.data ++ '/' :: (r.data ++ ("/tree/".data ++ b.data)),
        isSpaceChar c = false := by
      refine List.forall_mem_append.mpr ⟨segOK_nonspace ho, ?_⟩
      refine List.forall_mem_cons.mpr ⟨by decide, ?_⟩
      refine List.forall_mem_append.mpr ⟨segOK_nonspace hr, ?_⟩
      exact List.forall_mem_append.mpr ⟨hlittree, segOK_nonspace hb⟩
    rw [parse_gh_reduce _ _ hd hbody,
        parseGhBody_tree_root _ o.data r.data b.data (segOK_notSlash ho) ho.1
          (segOK_notSlash hr) hr.1 (segOK_notSlash hb) hb.1]
    rfl
  · intro o r ho hr
    have hd : ("https://github.com/" ++ o ++ "/" ++ r).data
        = "https://github.com/".data ++ (o.data ++ '/' :: (r.data ++ [])) := by
      simp only [String.data_append, hslashdata, List.singleton_append, List.cons_append,
        List.nil_append, List.append_assoc, List.append_nil]
    have hbody : ∀ c ∈ o.data ++ '/' :: (r.data ++ []),
        isSpaceChar c = false := by
      refine List.forall_mem_append.mpr ⟨segOK_nonspace ho, ?_⟩
      refine List.forall_mem_cons.mpr ⟨by decide, ?_⟩
      refine List.forall_mem_append.mpr ⟨segOK_nonspace hr, ?_⟩
      intro c hc
      exact absurd hc (List.not_mem_nil c)
    rw [parse_gh_reduce _ _ hd hbody,
        parseGhBody_bare _ o.data r.data (segOK_notSlash ho) ho.1 (segOK_notSlash hr) hr.1]
    rfl
  · intro o r b p ho hr hb hp
    have hd : ("https://raw.githubusercontent.com/" ++ o ++ "/" ++ r ++ "/" ++ b ++ "/" ++ p).data
        = "https://raw.githubusercontent.com/".data
          ++ (o.data ++ '/' :: (r.data ++ ('/' :: (b.data ++ '/' :: p.data)))) := by
      simp only [String.data_append, hslashdata, List.singleton_append, List.cons_append, List.nil_append, List.append_assoc]
    have hbody : ∀ c ∈ o.data ++ '/' :: (r.data ++ ('/' :: (b.data ++ '/' :: p.data))),
        isSpaceChar c = false := by
      refine List.forall_mem_append.mpr ⟨segOK_nonspace ho, ?_⟩
      refine List.forall_mem_cons.mpr ⟨by decide, ?_⟩
      refine List.forall_mem_append.mpr ⟨segOK_nonspace hr, ?_⟩
      refine List.forall_mem_cons.mpr ⟨by decide, ?_⟩
      refine List.forall_mem_append.mpr ⟨segOK_nonspace hb, ?_⟩
      exact List.forall_mem_cons.mpr ⟨by decide, hp.2⟩
    rw [parse_raw_reduce _ _ hd hbody,
        parseRawBody_pos _ o.data r.data b.data p.data (segOK_notSlash ho) ho.1
          (segOK_notSlash hr) hr.1 (segOK_notSlash hb) hb.1 (pathOK_notNl hp) hp.1]
    rfl
  · rfl
  · intro s
    constructor
    · intro hnone hshape
      have := shape_parse_isSome hshape
      rw [hnone] at this
      exact absurd this (by simp)
    · intro hshape
      cases hp : GitHubURLParser.parse s with
      | none => rfl
      | some ref => exact absurd (parse_some_shape hp) hshape

/-- CLAIM C8 (witness): a concrete blob URL recovered exactly. -/
theorem claim_c8_witness :
    segOK "acme" ∧ segOK "widgets" ∧ segOK "main" ∧ pathOK "src/app.py" ∧
    (GitHubURLParser.parse "https://github.com/acme/widgets/blob/main/src/app.py").map refParts
      = some ("acme", "widgets", "main", "src/app.py", true, false, false) :=
  ⟨by unfold segOK; decide, by unfold segOK; decide, by unfold segOK; decide,
   by unfold pathOK; decide,
   claim_c8_parse_shapes.1 "acme" "widgets" "main" "src/app.py"
     (by unfold segOK; decide) (by unfold segOK; decide) (by unfold segOK; decide)
     (by unfold pathOK; decide)⟩
